import Mathlib

/-!
Verification of the `illuminated-inmates` simulation (`src/main.rs`).

Modelling conventions for the shallow embedding:

* Rust `u32`/`usize` values (`day`, counts, indexes) are modelled as `Nat`.
  Every quantity the program manipulates is bounded by the population size or
  by the number of elapsed days, and a Rust debug build aborts on arithmetic
  overflow rather than wrapping, so `Nat` is the faithful model of every
  non-aborting execution.
* `Vec<bool>` becomes `List Bool`; in-place mutation becomes functional update
  with `List.set`, and indexing uses `List.getD`/`List.get` under the bounds
  that `rand::thread_rng().gen_range(0, prisoner_count)` guarantees.
* The random choice made inside `WorldState::iterate` is externalised: the
  chosen prisoner index is a parameter, and whole-trial runs take the list of
  chosen indexes.  A valid choice satisfies `chosen < prisoner_count`.
* Diverging control flow (Rust panics: sampling an empty range, index out of
  bounds, `Prisoner over-estimated ...`, `Option::unwrap` on `None`, integer
  division by zero) is modelled by explicit error constructors or `Option`.
-/

namespace IlluminatedInmates

/-- `fn count_true(iter: std::slice::Iter<bool>) -> u32` from `src/main.rs`:
fold that adds 1 for every `true` entry. -/
def count_true (l : List Bool) : Nat :=
  l.foldl (fun sum is_true => sum + if is_true then 1 else 0) 0

/-- `struct Prisoner` from `src/main.rs`. -/
structure Prisoner where
  known_visited_prisoners : List Bool
  deriving Repr, DecidableEq, Inhabited

/-- `Prisoner::new`: a prisoner with an all-`false` knowledge table. -/
def Prisoner.new (prisoner_count : Nat) : Prisoner :=
  { known_visited_prisoners := List.replicate prisoner_count false }

/-- `Prisoner::get_todays_prisoner_indexes`: the singleton list
`[day % prisoner_count]`. -/
def Prisoner.get_todays_prisoner_indexes (self : Prisoner) (day : Nat) : List Nat :=
  let prisoner_count := self.known_visited_prisoners.length
  let period := prisoner_count
  let day_index := day % period
  [day_index]

/-- `Prisoner::select_light_position`: mark `self_index` known; if `day > 0`
and the light is on, also mark the previous day's indexes known; return
whether all of today's indexes are known.  The Rust method mutates `self`, so
the model returns the updated prisoner together with the returned `bool`. -/
def Prisoner.select_light_position (self : Prisoner) (day : Nat) (light_is_on : Bool)
    (self_index : Nat) : Prisoner × Bool :=
  let self1 : Prisoner :=
    { known_visited_prisoners := self.known_visited_prisoners.set self_index true }
  let self2 : Prisoner :=
    if 0 < day ∧ light_is_on = true then
      { known_visited_prisoners :=
          (self1.get_todays_prisoner_indexes (day - 1)).foldl
            (fun known i => known.set i true) self1.known_visited_prisoners }
    else self1
  (self2, (self2.get_todays_prisoner_indexes day).all
      (fun i => self2.known_visited_prisoners.getD i false))

/-- `Prisoner::count_known`. -/
def Prisoner.count_known (self : Prisoner) : Nat :=
  count_true self.known_visited_prisoners

/-- `struct WorldState` from `src/main.rs`. -/
structure WorldState where
  prisoners : List Prisoner
  interrogated_prisoners : List Bool
  day : Nat
  light_is_on : Bool
  last_prisoner_interrogated_on_day : Option Nat
  deriving Repr, DecidableEq

/-- `WorldState::new`. -/
def WorldState.new (prisoner_count : Nat) : WorldState :=
  { prisoners := List.replicate prisoner_count (Prisoner.new prisoner_count)
    interrogated_prisoners := List.replicate prisoner_count false
    day := 0
    light_is_on := false
    last_prisoner_interrogated_on_day := none }

/-- Outcome of one call to `WorldState::iterate`.  The three `panic`
constructors model the Rust panics that can occur inside the method:
`gen_range` on an empty range when the population is empty, slice indexing
out of bounds, and the explicit `Prisoner over-estimated ...` panic. -/
inductive IterateResult where
  | panicEmptyRange : IterateResult
  | panicBadIndex : IterateResult
  | panicOverEstimate : IterateResult
  | ok : WorldState → Bool → IterateResult
  deriving Repr, DecidableEq

/-- `WorldState::iterate` with the randomly chosen index externalised as the
parameter `chosen_prisoner_index`.  Returns the updated state and the `bool`
the Rust method returns (`true` means the trial terminates). -/
def WorldState.iterate (self : WorldState) (chosen_prisoner_index : Nat) : IterateResult :=
  let prisoner_count := self.prisoners.length
  if prisoner_count = 0 then .panicEmptyRange
  else if hidx : chosen_prisoner_index < prisoner_count then
    let interrogated_prisoners := self.interrogated_prisoners.set chosen_prisoner_index true
    let step := (self.prisoners.get ⟨chosen_prisoner_index, hidx⟩).select_light_position
        self.day self.light_is_on chosen_prisoner_index
    let chosen_prisoner := step.1
    let light_is_on := step.2
    let actual_count := count_true interrogated_prisoners
    let reported_count := chosen_prisoner.count_known
    let last :=
      match self.last_prisoner_interrogated_on_day with
      | some d => some d
      | none => if actual_count = prisoner_count then some self.day else none
    if reported_count > actual_count then .panicOverEstimate
    else if reported_count = prisoner_count then
      .ok { prisoners := self.prisoners.set chosen_prisoner_index chosen_prisoner
            interrogated_prisoners := interrogated_prisoners
            day := self.day
            light_is_on := light_is_on
            last_prisoner_interrogated_on_day := last } true
    else
      .ok { prisoners := self.prisoners.set chosen_prisoner_index chosen_prisoner
            interrogated_prisoners := interrogated_prisoners
            day := self.day + 1
            light_is_on := light_is_on
            last_prisoner_interrogated_on_day := last } false
  else .panicBadIndex

/-- `struct SimulationResult` from `src/main.rs`. -/
structure SimulationResult where
  last_prisoner_interrogated_on_day : Nat
  prisoners_freed_on_day : Nat
  deriving Repr, DecidableEq

/-- Outcome of `run_simulation`'s driving loop on a finite list of random
choices.  `outOfChoices` means the supplied choice list was exhausted before
the trial terminated; the `panic` constructors propagate the panics of
`WorldState::iterate` plus the `unwrap` of `last_prisoner_interrogated_on_day`
performed after the loop. -/
inductive RunOutcome where
  | outOfChoices : WorldState → RunOutcome
  | panicEmptyRange : RunOutcome
  | panicBadIndex : RunOutcome
  | panicOverEstimate : RunOutcome
  | panicUnwrapNone : RunOutcome
  | done : SimulationResult → RunOutcome
  deriving Repr, DecidableEq

/-- The `while !state.iterate() {}` loop of `run_simulation` together with the
construction of the returned `SimulationResult` (logging is a side effect with
no bearing on the state and is omitted). -/
def run_simulation_loop (state : WorldState) : List Nat → RunOutcome
  | [] => .outOfChoices state
  | choice :: rest =>
    match state.iterate choice with
    | .panicEmptyRange => .panicEmptyRange
    | .panicBadIndex => .panicBadIndex
    | .panicOverEstimate => .panicOverEstimate
    | .ok state' true =>
      match state'.last_prisoner_interrogated_on_day with
      | some d =>
        .done { last_prisoner_interrogated_on_day := d
                prisoners_freed_on_day := state'.day }
      | none => .panicUnwrapNone
    | .ok state' false => run_simulation_loop state' rest

/-- The `average_runtime` computation in `main`:
`fold(0, |sum, r| sum + r.prisoners_freed_on_day) / repetitions`.  Rust
integer division by zero panics, modelled by `none`. -/
def average_runtime (simulation_results : List SimulationResult)
    (repetitions : Nat) : Option Nat :=
  if repetitions = 0 then none
  else some ((simulation_results.foldl
      (fun sum sim_result => sum + sim_result.prisoners_freed_on_day) 0) / repetitions)

/-- The `average_last_interrogated_day` computation in `main`. -/
def average_last_interrogated_day (simulation_results : List SimulationResult)
    (repetitions : Nat) : Option Nat :=
  if repetitions = 0 then none
  else some ((simulation_results.foldl
      (fun sum sim_result => sum + sim_result.last_prisoner_interrogated_on_day) 0) / repetitions)

/-- World states reachable from `WorldState.new prisoner_count` by repeatedly
calling `iterate` with arbitrary (valid) random choices. -/
inductive Reachable (prisoner_count : Nat) : WorldState → Prop where
  | init : Reachable prisoner_count (WorldState.new prisoner_count)
  | step {s s' : WorldState} {choice : Nat} {finished : Bool} :
      Reachable prisoner_count s →
      s.iterate choice = .ok s' finished →
      Reachable prisoner_count s'

/-- Every entry a prisoner believes visited is truly interrogated. -/
def knowledgeSubset (s : WorldState) : Prop :=
  ∀ p ∈ s.prisoners, ∀ i : Nat,
    p.known_visited_prisoners.getD i false = true →
    s.interrogated_prisoners.getD i false = true

theorem count_true_go (l : List Bool) (n : Nat) :
    l.foldl (fun sum is_true => sum + if is_true then 1 else 0) n = n + count_true l := by
  induction l generalizing n with
  | nil => simp [count_true]
  | cons b t ih =>
    rw [List.foldl_cons, ih]
    have hc : count_true (b :: t) = (0 + if b then 1 else 0) + count_true t := by
      show (b :: t).foldl _ 0 = _
      rw [List.foldl_cons, ih]
    rw [hc]
    omega

theorem count_true_cons (b : Bool) (l : List Bool) :
    count_true (b :: l) = (if b then 1 else 0) + count_true l := by
  show (b :: l).foldl _ 0 = _
  rw [List.foldl_cons, count_true_go, Nat.zero_add]

theorem count_true_append (l₁ l₂ : List Bool) :
    count_true (l₁ ++ l₂) = count_true l₁ + count_true l₂ := by
  induction l₁ with
  | nil => simp [count_true]
  | cons b t ih =>
    rw [List.cons_append, count_true_cons, count_true_cons, ih, Nat.add_assoc]

theorem count_true_le_length (l : List Bool) : count_true l ≤ l.length := by
  induction l with
  | nil => simp [count_true]
  | cons b t ih =>
    rw [count_true_cons, List.length_cons]
    cases b <;> simp <;> omega

theorem count_true_mono (l₁ l₂ : List Bool) (hlen : l₁.length = l₂.length)
    (h : ∀ i, i < l₁.length → l₁.getD i false = true → l₂.getD i false = true) :
    count_true l₁ ≤ count_true l₂ := by
  induction l₁ generalizing l₂ with
  | nil => simp [count_true]
  | cons b t ih =>
    cases l₂ with
    | nil => simp at hlen
    | cons b₂ t₂ =>
      rw [count_true_cons, count_true_cons]
      have hb : b = true → b₂ = true := fun hb =>
        h 0 (by simp) (by rwa [List.getD_cons_zero])
      have ht : count_true t ≤ count_true t₂ := by
        refine ih t₂ (by simpa using hlen) (fun i hi hig => ?_)
        have := h (i + 1) (by simpa using Nat.succ_lt_succ hi)
          (by rwa [List.getD_cons_succ])
        rwa [List.getD_cons_succ] at this
      cases b with
      | false => cases b₂ <;> simp <;> omega
      | true => rw [hb rfl] ; omega

theorem count_true_eq_length (l : List Bool) (h : ∀ i, i < l.length → l.getD i false = true) :
    count_true l = l.length := by
  induction l with
  | nil => simp [count_true]
  | cons b t ih =>
    rw [count_true_cons, List.length_cons]
    have hb : b = true := by
      have := h 0 (by simp)
      rwa [List.getD_cons_zero] at this
    have ht : count_true t = t.length := by
      refine ih (fun i hi => ?_)
      have := h (i + 1) (by simpa using Nat.succ_lt_succ hi)
      rwa [List.getD_cons_succ] at this
    rw [hb, ht]
    simp [Nat.add_comm]

theorem count_true_lt_length (l : List Bool) (i : Nat) (hi : i < l.length)
    (hfi : l.getD i false = false) : count_true l < l.length := by
  induction l generalizing i with
  | nil => simp at hi
  | cons b t ih =>
    rw [count_true_cons, List.length_cons]
    cases i with
    | zero =>
      rw [List.getD_cons_zero] at hfi
      subst hfi
      have := count_true_le_length t
      simp
      omega
    | succ j =>
      rw [List.getD_cons_succ] at hfi
      have := ih j (by simpa using Nat.lt_of_succ_lt_succ hi) hfi
      cases b <;> simp <;> omega

theorem getD_set {α : Type} (l : List α) (i j : Nat) (a d : α) :
    (l.set i a).getD j d = if i = j ∧ j < l.length then a else l.getD j d := by
  rw [List.getD_eq_getElem?_getD, List.getD_eq_getElem?_getD, List.getElem?_set]
  by_cases h1 : i = j
  · subst h1
    by_cases h2 : i < l.length
    · simp [h2]
    · rw [List.getElem?_eq_none (Nat.le_of_not_lt h2)]
      simp [h2]
  · simp [h1]

theorem getD_map_range {α : Type} (n x : Nat) (d : α) (f : Nat → α) :
    ((List.range n).map f).getD x d = if x < n then f x else d := by
  rw [List.getD_eq_getElem?_getD, List.getElem?_map]
  by_cases h : x < n
  · rw [List.getElem?_range h]
    simp [h]
  · rw [List.getElem?_eq_none (by simpa using Nat.le_of_not_lt h)]
    simp [h]

theorem set_map_range {α : Type} (n i : Nat) (a : α) (f : Nat → α) :
    ((List.range n).map f).set i a
      = (List.range n).map fun x => if x = i ∧ i < n then a else f x := by
  apply List.ext_getElem
  · simp
  · intro j h1 h2
    simp only [List.getElem_set, List.getElem_map, List.getElem_range]
    have hj : j < n := by simpa using h2
    by_cases h : i = j
    · subst h
      simp [hj]
    · have : ¬(j = i ∧ i < n) := fun hc => h hc.1.symm
      simp [h, this]

theorem map_range_congr {α : Type} {n : Nat} {f g : Nat → α} (h : ∀ x, x < n → f x = g x) :
    (List.range n).map f = (List.range n).map g :=
  List.map_congr_left (fun a ha => h a (List.mem_range.mp ha))

theorem replicate_eq_map_range {α : Type} (n : Nat) (a : α) :
    List.replicate n a = (List.range n).map fun _ => a := by
  rw [List.map_const', List.length_range]

theorem count_true_map_range_succ (n : Nat) (f : Nat → Bool) :
    count_true ((List.range (n + 1)).map f)
      = count_true ((List.range n).map f) + (if f n then 1 else 0) := by
  rw [List.range_succ, List.map_append, count_true_append]
  congr 1
  cases h : f n <;> simp [count_true, h]

theorem count_true_map_range_le (n : Nat) (f : Nat → Bool) :
    count_true ((List.range n).map f) ≤ n := by
  have := count_true_le_length ((List.range n).map f)
  simpa using this

theorem count_true_map_range_full (n : Nat) (f : Nat → Bool) (h : ∀ x, x < n → f x = true) :
    count_true ((List.range n).map f) = n := by
  have := count_true_eq_length ((List.range n).map f) (fun i hi => by
    have hi' : i < n := by simpa using hi
    rw [getD_map_range]
    simp [hi', h i hi'])
  simpa using this

theorem count_true_map_range_lt (n : Nat) (f : Nat → Bool) (x : Nat) (hx : x < n)
    (hfx : f x = false) : count_true ((List.range n).map f) < n := by
  have := count_true_lt_length ((List.range n).map f) x (by simpa using hx)
    (by rw [getD_map_range] ; simp [hx, hfx])
  simpa using this

theorem count_true_map_range_mono (n : Nat) (f g : Nat → Bool)
    (h : ∀ x, x < n → f x = true → g x = true) :
    count_true ((List.range n).map f) ≤ count_true ((List.range n).map g) := by
  refine count_true_mono _ _ (by simp) (fun i hi hf => ?_)
  have hi' : i < n := by simpa using hi
  rw [getD_map_range] at hf ⊢
  simp only [hi', if_pos] at hf ⊢
  exact h i hi' hf

/-- Full characterisation of `Prisoner.select_light_position`: the updated
knowledge table marks `self_index` (and, when `day > 0` and the light is on,
also `(day - 1) % P`), leaves everything else unchanged, and the returned
signal is the updated entry at `day % P`. -/
theorem select_light_position_spec (p : Prisoner) (day : Nat) (light_is_on : Bool)
    (self_index : Nat) (hpos : 0 < p.known_visited_prisoners.length)
    (hself : self_index < p.known_visited_prisoners.length) :
    (p.select_light_position day light_is_on self_index).1.known_visited_prisoners.length
        = p.known_visited_prisoners.length ∧
    (∀ j : Nat,
      (p.select_light_position day light_is_on self_index).1.known_visited_prisoners.getD j false
        = (p.known_visited_prisoners.getD j false || decide (j = self_index) ||
           (decide (0 < day) && light_is_on &&
            decide (j = (day - 1) % p.known_visited_prisoners.length)))) ∧
    (p.select_light_position day light_is_on self_index).2
      = (p.select_light_position day light_is_on self_index).1.known_visited_prisoners.getD
          (day % p.known_visited_prisoners.length) false := by
  set n := p.known_visited_prisoners.length with hn
  have hlen1 : (p.known_visited_prisoners.set self_index true).length = n := by
    rw [List.length_set]
  constructor
  · show (Prisoner.select_light_position p day light_is_on self_index).1.known_visited_prisoners.length = n
    simp only [Prisoner.select_light_position, Prisoner.get_todays_prisoner_indexes]
    split
    · simp [List.length_set]
    · simp [List.length_set]
  constructor
  · intro j
    show (Prisoner.select_light_position p day light_is_on self_index).1.known_visited_prisoners.getD j false = _
    simp only [Prisoner.select_light_position, Prisoner.get_todays_prisoner_indexes]
    split
    · rename_i hcond
      obtain ⟨hday, hlight⟩ := hcond
      simp only [List.foldl_cons, List.foldl_nil, hlen1]
      rw [getD_set, getD_set]
      rw [List.length_set]
      have hmod : (day - 1) % n < n := Nat.mod_lt _ hpos
      by_cases h1 : j = (day - 1) % n
      · subst h1
        simp [hmod, hlight, hday]
      · by_cases h2 : j = self_index
        · subst h2
          have : ¬((day - 1) % n = j) := fun hc => h1 hc.symm
          simp [this, hself, h1]
        · have e1 : ¬((day - 1) % n = j ∧ j < n) := fun hc => h1 hc.1.symm
          have e2 : ¬(self_index = j ∧ j < p.known_visited_prisoners.length) :=
            fun hc => h2 hc.1.symm
          simp only [e1, if_neg, e2, if_false]
          simp [h1, h2]
    · rename_i hcond
      rw [getD_set]
      have hor : ¬(0 < day ∧ light_is_on = true) := hcond
      by_cases h2 : j = self_index
      · subst h2
        simp [hself]
      · have e2 : ¬(self_index = j ∧ j < p.known_visited_prisoners.length) :=
          fun hc => h2 hc.1.symm
        simp only [e2, if_false]
        rcases Decidable.not_and_iff_or_not.mp hor with h | h
        · have hday : day = 0 := Nat.eq_zero_of_not_pos h
          simp [hday, h2]
        · have hlight : light_is_on = false := by
            cases light_is_on
            · rfl
            · exact absurd rfl h
          simp [hlight, h2]
  · show (Prisoner.select_light_position p day light_is_on self_index).2 = _
    simp only [Prisoner.select_light_position, Prisoner.get_todays_prisoner_indexes]
    split
    · simp only [List.foldl_cons, List.foldl_nil, List.all_cons, List.all_nil,
        Bool.and_true, List.length_set, hlen1]
    · simp only [List.all_cons, List.all_nil, Bool.and_true, List.length_set]

theorem getD_replicate_false (n i : Nat) : (List.replicate n false).getD i false = false := by
  rw [replicate_eq_map_range, getD_map_range]
  split <;> rfl

theorem getD_mem {α : Type} (l : List α) (i : Nat) (d : α) (hi : i < l.length) :
    l.getD i d ∈ l := by
  rw [List.getD_eq_getElem l d hi]
  exact List.getElem_mem hi

/-- The inductive invariant maintained by `WorldState.iterate`: the two
boolean tables have the population's length, every prisoner's knowledge is a
subset of the truly interrogated set, a lit light means the previous day's
designated prisoner was truly interrogated, and the recorded full-coverage
day never exceeds the current day. -/
def WorldState.goodState (s : WorldState) : Prop :=
  s.interrogated_prisoners.length = s.prisoners.length ∧
  (∀ p ∈ s.prisoners, p.known_visited_prisoners.length = s.prisoners.length) ∧
  knowledgeSubset s ∧
  (s.light_is_on = true → 0 < s.day →
    s.interrogated_prisoners.getD ((s.day - 1) % s.prisoners.length) false = true) ∧
  (∀ d, s.last_prisoner_interrogated_on_day = some d → d ≤ s.day)

theorem goodState_new (prisoner_count : Nat) : (WorldState.new prisoner_count).goodState := by
  refine ⟨by simp [WorldState.new], ?_, ?_, ?_, ?_⟩
  · intro p hp
    have := List.eq_of_mem_replicate hp
    subst this
    simp [WorldState.new, Prisoner.new]
  · intro p hp i hi
    have := List.eq_of_mem_replicate hp
    subst this
    rw [show (Prisoner.new prisoner_count).known_visited_prisoners
        = List.replicate prisoner_count false from rfl, getD_replicate_false] at hi
    exact absurd hi (by simp)
  · intro hlight
    simp [WorldState.new] at hlight
  · intro d hd
    simp [WorldState.new] at hd

/-- In a good state, every prisoner's reported count is at most the count of
truly interrogated prisoners. -/
theorem goodState_count_le (s : WorldState) (hgood : s.goodState) (p : Prisoner)
    (hp : p ∈ s.prisoners) :
    p.count_known ≤ count_true s.interrogated_prisoners := by
  obtain ⟨hleni, hlenp, hsub, -, -⟩ := hgood
  refine count_true_mono _ _ (by rw [hlenp p hp, hleni]) ?_
  intro i _ hi
  exact hsub p hp i hi

/-- Setting an entry of the interrogated table to `true` preserves every
`true` entry. -/
theorem interrogated_set_keep (l : List Bool) (c j : Nat)
    (hj : l.getD j false = true) : (l.set c true).getD j false = true := by
  rw [getD_set]
  split
  · rfl
  · exact hj

theorem interrogated_set_self (l : List Bool) (c : Nat) (hc : c < l.length) :
    (l.set c true).getD c false = true := by
  rw [getD_set]
  simp [hc]

/-- The state built inside `WorldState.iterate` (in either the terminating or
the continuing branch) is again a good state, given the facts the caller can
establish about the updated chosen prisoner `q` and the new light value. -/
theorem updState_good (s : WorldState) (c : Nat) (q : Prisoner) (light' : Bool) (day' : Nat)
    (hleni : s.interrogated_prisoners.length = s.prisoners.length)
    (hlenp : ∀ p ∈ s.prisoners, p.known_visited_prisoners.length = s.prisoners.length)
    (hsub : knowledgeSubset s)
    (hlast : ∀ d, s.last_prisoner_interrogated_on_day = some d → d ≤ s.day)
    (hqlen : q.known_visited_prisoners.length = s.prisoners.length)
    (hqsub : ∀ j, q.known_visited_prisoners.getD j false = true →
      (s.interrogated_prisoners.set c true).getD j false = true)
    (hlightOk : light' = true → 0 < day' →
      (s.interrogated_prisoners.set c true).getD ((day' - 1) % s.prisoners.length) false = true)
    (hday : s.day ≤ day') :
    (WorldState.mk (s.prisoners.set c q) (s.interrogated_prisoners.set c true) day' light'
      (match s.last_prisoner_interrogated_on_day with
       | some d => some d
       | none => if count_true (s.interrogated_prisoners.set c true) = s.prisoners.length
                 then some s.day else none)).goodState := by
  have hplen : (s.prisoners.set c q).length = s.prisoners.length := List.length_set _ _ _
  refine ⟨?_, ?_, ?_, ?_, ?_⟩
  · show (s.interrogated_prisoners.set c true).length = (s.prisoners.set c q).length
    rw [List.length_set, List.length_set, hleni]
  · intro p hp
    rw [hplen]
    rcases List.mem_or_eq_of_mem_set hp with hold | hnew
    · exact hlenp p hold
    · rw [hnew]
      exact hqlen
  · intro p hp i hi
    rcases List.mem_or_eq_of_mem_set hp with hold | hnew
    · exact interrogated_set_keep _ _ _ (hsub p hold i hi)
    · subst hnew
      exact hqsub i hi
  · intro hl hd
    rw [hplen]
    exact hlightOk hl hd
  · intro d hd
    simp only at hd
    cases hlastv : s.last_prisoner_interrogated_on_day with
    | some d0 =>
      rw [hlastv] at hd
      simp only at hd
      cases hd
      exact Nat.le_trans (hlast _ hlastv) hday
    | none =>
      rw [hlastv] at hd
      simp only at hd
      split at hd
      · cases hd
        exact hday
      · cases hd

theorem select_len (s : WorldState) (c : Nat) (hc : c < s.prisoners.length)
    (hgood : s.goodState) :
    ((s.prisoners.get ⟨c, hc⟩).select_light_position
        s.day s.light_is_on c).1.known_visited_prisoners.length = s.prisoners.length := by
  obtain ⟨hleni, hlenp, hsub, hlight, hlast⟩ := hgood
  have hp₀len := hlenp _ (List.get_mem s.prisoners c hc)
  have hpos : 0 < s.prisoners.length := Nat.lt_of_le_of_lt (Nat.zero_le c) hc
  obtain ⟨slen, -, -⟩ := select_light_position_spec (s.prisoners.get ⟨c, hc⟩)
    s.day s.light_is_on c (by rw [hp₀len]; exact hpos) (by rw [hp₀len]; exact hc)
  rw [slen, hp₀len]

/-- Knowledge of the chosen prisoner after `select_light_position` is still a
subset of the updated interrogated table. -/
theorem select_subset_interrogated (s : WorldState) (c : Nat) (hc : c < s.prisoners.length)
    (hgood : s.goodState) :
    ∀ j, ((s.prisoners.get ⟨c, hc⟩).select_light_position
        s.day s.light_is_on c).1.known_visited_prisoners.getD j false = true →
      (s.interrogated_prisoners.set c true).getD j false = true := by
  obtain ⟨hleni, hlenp, hsub, hlight, hlast⟩ := hgood
  have hp₀mem := List.get_mem s.prisoners c hc
  have hp₀len := hlenp _ hp₀mem
  have hpos : 0 < s.prisoners.length := Nat.lt_of_le_of_lt (Nat.zero_le c) hc
  obtain ⟨-, sgetD, -⟩ := select_light_position_spec (s.prisoners.get ⟨c, hc⟩)
    s.day s.light_is_on c (by rw [hp₀len]; exact hpos) (by rw [hp₀len]; exact hc)
  intro j hj
  rw [sgetD j] at hj
  simp only [Bool.or_eq_true, Bool.and_eq_true, decide_eq_true_eq] at hj
  rcases hj with (hold | hcj) | ⟨⟨hdaypos, hlon⟩, hj⟩
  · exact interrogated_set_keep _ _ _ (hsub _ hp₀mem j hold)
  · subst hcj
    exact interrogated_set_self _ _ (by rw [hleni]; exact hc)
  · subst hj
    rw [hp₀len]
    exact interrogated_set_keep _ _ _ (hlight hlon hdaypos)

theorem select_out (s : WorldState) (c : Nat) (hc : c < s.prisoners.length)
    (hgood : s.goodState) :
    ((s.prisoners.get ⟨c, hc⟩).select_light_position s.day s.light_is_on c).2
      = ((s.prisoners.get ⟨c, hc⟩).select_light_position
          s.day s.light_is_on c).1.known_visited_prisoners.getD
            (s.day % s.prisoners.length) false := by
  obtain ⟨hleni, hlenp, hsub, hlight, hlast⟩ := hgood
  have hp₀len := hlenp _ (List.get_mem s.prisoners c hc)
  have hpos : 0 < s.prisoners.length := Nat.lt_of_le_of_lt (Nat.zero_le c) hc
  obtain ⟨-, -, sout⟩ := select_light_position_spec (s.prisoners.get ⟨c, hc⟩)
    s.day s.light_is_on c (by rw [hp₀len]; exact hpos) (by rw [hp₀len]; exact hc)
  rw [sout, hp₀len]

/-- The chosen prisoner's reported count never exceeds the updated actual
count: the `reported > actual` check in `WorldState::iterate` can never
succeed from a good state. -/
theorem select_count_le (s : WorldState) (c : Nat) (hc : c < s.prisoners.length)
    (hgood : s.goodState) :
    ((s.prisoners.get ⟨c, hc⟩).select_light_position s.day s.light_is_on c).1.count_known
      ≤ count_true (s.interrogated_prisoners.set c true) := by
  have hleni := hgood.1
  refine count_true_mono _ _ ?_ ?_
  · rw [select_len s c hc hgood, List.length_set, hleni]
  · intro i _ hi
    exact select_subset_interrogated s c hc hgood i hi

/-- Whenever `iterate` returns successfully from a good state, the new state
is good, the table lengths are unchanged, the day does not decrease, and on
termination a full-coverage day is recorded that is at most the current day. -/
theorem iterate_ok_spec {s : WorldState} {c : Nat} {s' : WorldState} {fin : Bool}
    (hgood : s.goodState) (h : s.iterate c = .ok s' fin) :
    s'.goodState ∧ s'.prisoners.length = s.prisoners.length ∧
    s'.interrogated_prisoners.length = s.interrogated_prisoners.length ∧
    s.day ≤ s'.day ∧
    (fin = true → ∃ d0, s'.last_prisoner_interrogated_on_day = some d0 ∧ d0 ≤ s'.day) := by
  obtain ⟨hleni, hlenp, hsub, hlight, hlast⟩ := hgood
  have hgood' : s.goodState := ⟨hleni, hlenp, hsub, hlight, hlast⟩
  simp only [WorldState.iterate] at h
  by_cases hP : s.prisoners.length = 0
  · rw [if_pos hP] at h
    cases h
  rw [if_neg hP] at h
  by_cases hc : c < s.prisoners.length
  case neg =>
    rw [dif_neg hc] at h
    cases h
  rw [dif_pos hc] at h
  have hqsub := select_subset_interrogated s c hc hgood'
  have hqlen := select_len s c hc hgood'
  have hout := select_out s c hc hgood'
  have hpos : 0 < s.prisoners.length := Nat.pos_of_ne_zero hP
  split at h
  · cases h
  rename_i hngt
  split at h
  · -- terminating branch
    rename_i hterm
    injection h with h1 h2
    subst h1
    subst h2
    have hactle : count_true (s.interrogated_prisoners.set c true) ≤ s.prisoners.length := by
      have := count_true_le_length (s.interrogated_prisoners.set c true)
      rwa [List.length_set, hleni] at this
    have hactual : count_true (s.interrogated_prisoners.set c true) = s.prisoners.length := by
      omega
    have hfull : ∀ j, j < s.prisoners.length →
        (s.interrogated_prisoners.set c true).getD j false = true := by
      intro j hj
      by_contra hne
      have hfalse : (s.interrogated_prisoners.set c true).getD j false = false := by
        cases hval : (s.interrogated_prisoners.set c true).getD j false
        · rfl
        · exact absurd hval hne
      have := count_true_lt_length (s.interrogated_prisoners.set c true) j
        (by rw [List.length_set, hleni]; exact hj) hfalse
      rw [List.length_set, hleni] at this
      omega
    refine ⟨?_, by simp [List.length_set], by simp [List.length_set], Nat.le_refl _, ?_⟩
    · refine updState_good s c _ _ s.day hleni hlenp hsub hlast hqlen hqsub ?_ (Nat.le_refl _)
      intro _ _
      exact hfull _ (Nat.mod_lt _ hpos)
    · intro _
      show ∃ d0, (match s.last_prisoner_interrogated_on_day with
        | some d => some d
        | none => if count_true (s.interrogated_prisoners.set c true) = s.prisoners.length
                  then some s.day else none) = some d0 ∧ d0 ≤ s.day
      cases hlastv : s.last_prisoner_interrogated_on_day with
      | some d0 => exact ⟨d0, rfl, hlast _ hlastv⟩
      | none =>
        refine ⟨s.day, ?_, Nat.le_refl _⟩
        simp only [if_pos hactual]
  · -- continuing branch
    rename_i hnterm
    injection h with h1 h2
    subst h1
    subst h2
    refine ⟨?_, by simp [List.length_set], by simp [List.length_set],
      Nat.le_succ _, ?_⟩
    · refine updState_good s c _ _ (s.day + 1) hleni hlenp hsub hlast hqlen hqsub ?_
        (Nat.le_succ _)
      intro hl _
      have : ((s.prisoners.get ⟨c, hc⟩).select_light_position
          s.day s.light_is_on c).1.known_visited_prisoners.getD
            (s.day % s.prisoners.length) false = true := by
        rw [← hout]
        exact hl
      have hres := hqsub _ this
      simpa using hres
    · intro hfin
      cases hfin

/-- From a good state with a nonempty population and a valid chosen index,
`iterate` never panics: it always returns `.ok`. -/
theorem iterate_no_panic (s : WorldState) (c : Nat) (hgood : s.goodState)
    (hpos : 0 < s.prisoners.length) (hc : c < s.prisoners.length) :
    ∃ s' fin, s.iterate c = .ok s' fin := by
  simp only [WorldState.iterate]
  rw [if_neg (Nat.pos_iff_ne_zero.mp hpos), dif_pos hc]
  have hle := select_count_le s c hc hgood
  rw [if_neg (Nat.not_lt.mpr hle)]
  split
  · exact ⟨_, _, rfl⟩
  · exact ⟨_, _, rfl⟩

/-- Every reachable state is good. -/
theorem reachable_goodState {prisoner_count : Nat} {s : WorldState}
    (h : Reachable prisoner_count s) : s.goodState := by
  induction h with
  | init => exact goodState_new prisoner_count
  | step _ hstep ih => exact (iterate_ok_spec ih hstep).1

/-- The trial loop, started from a good state over valid choices, never hits
any panic, and any returned result satisfies
`last_prisoner_interrogated_on_day ≤ prisoners_freed_on_day`. -/
theorem run_loop_spec (choices : List Nat) :
    ∀ s : WorldState, s.goodState → 0 < s.prisoners.length →
    (∀ c ∈ choices, c < s.prisoners.length) →
    (run_simulation_loop s choices ≠ .panicEmptyRange ∧
     run_simulation_loop s choices ≠ .panicBadIndex ∧
     run_simulation_loop s choices ≠ .panicOverEstimate ∧
     run_simulation_loop s choices ≠ .panicUnwrapNone) ∧
    (∀ r, run_simulation_loop s choices = .done r →
      r.last_prisoner_interrogated_on_day ≤ r.prisoners_freed_on_day) := by
  induction choices with
  | nil =>
    intro s _ _ _
    refine ⟨⟨?_, ?_, ?_, ?_⟩, ?_⟩ <;> simp [run_simulation_loop]
  | cons ch rest ih =>
    intro s hgood hpos hvalid
    obtain ⟨s', fin, hstep⟩ := iterate_no_panic s ch hgood hpos (hvalid ch (by simp))
    obtain ⟨hgood', hplen, hilen, hday, hfin⟩ := iterate_ok_spec hgood hstep
    cases fin with
    | true =>
      obtain ⟨d0, hd0, hle⟩ := hfin rfl
      have hrun : run_simulation_loop s (ch :: rest) = .done ⟨d0, s'.day⟩ := by
        simp only [run_simulation_loop, hstep, hd0]
      rw [hrun]
      refine ⟨⟨by simp, by simp, by simp, by simp⟩, ?_⟩
      intro r hr
      injection hr with hr'
      subst hr'
      exact hle
    | false =>
      have hrun : run_simulation_loop s (ch :: rest) = run_simulation_loop s' rest := by
        simp only [run_simulation_loop, hstep]
      rw [hrun]
      refine ih s' hgood' (by rw [hplen]; exact hpos) ?_
      intro c hcmem
      rw [hplen]
      exact hvalid c (by simp [hcmem])

/-- Claim C1: for every population size `P ≥ 1` and every sequence of chosen
prisoner indexes, after any number of calls to `WorldState::iterate` every
prisoner's `known_visited_prisoners` set is a subset of
`interrogated_prisoners`; the predicate holds initially and is preserved by
each `iterate` step (stated via the reachability predicate, whose two
constructors are exactly the initial state and one `iterate` step). -/
theorem claim_C1_knowledge_subset (P : Nat) (s : WorldState)
    (hP : 1 ≤ P) (hreach : Reachable P s) : knowledgeSubset s :=
  (reachable_goodState hreach).2.2.1

theorem claim_C1_witness : knowledgeSubset (WorldState.new 1) :=
  claim_C1_knowledge_subset 1 (WorldState.new 1) (Nat.le_refl 1) Reachable.init

/-- Claim C2: at the check inside `WorldState::iterate`, the chosen
prisoner's `count_known()` is always at most the count of truly interrogated
prisoners, so the `Prisoner over-estimated` panic branch is unreachable from
any reachable state: `iterate` always returns `.ok`. -/
theorem claim_C2_no_overestimate (P : Nat) (s : WorldState) (c : Nat)
    (hP : 1 ≤ P) (hreach : Reachable P s) (hc : c < s.prisoners.length) :
    (∃ s' fin, s.iterate c = .ok s' fin) ∧
    (∀ s' fin, s.iterate c = .ok s' fin →
      (s'.prisoners.getD c default).count_known ≤ count_true s'.interrogated_prisoners) ∧
    s.iterate c ≠ .panicOverEstimate := by
  have hgood := reachable_goodState hreach
  have hpos : 0 < s.prisoners.length := Nat.lt_of_le_of_lt (Nat.zero_le c) hc
  obtain ⟨s', fin, hok⟩ := iterate_no_panic s c hgood hpos hc
  refine ⟨⟨s', fin, hok⟩, ?_, by rw [hok]; simp⟩
  intro s'' fin'' hok''
  obtain ⟨hgood'', hlen'', -, -, -⟩ := iterate_ok_spec hgood hok''
  refine goodState_count_le _ hgood'' _ (getD_mem _ _ _ ?_)
  rw [hlen'']
  exact hc

theorem claim_C2_witness :
    (∃ s' fin, (WorldState.new 1).iterate 0 = .ok s' fin) ∧
    (∀ s' fin, (WorldState.new 1).iterate 0 = .ok s' fin →
      (s'.prisoners.getD 0 default).count_known ≤ count_true s'.interrogated_prisoners) ∧
    (WorldState.new 1).iterate 0 ≠ .panicOverEstimate :=
  claim_C2_no_overestimate 1 (WorldState.new 1) 0 (Nat.le_refl 1) Reachable.init (by decide)

/-- Claim C3: for every `P ≥ 1` and every valid selection sequence under
which the trial terminates, the returned result satisfies
`last_prisoner_interrogated_on_day ≤ prisoners_freed_on_day`. -/
theorem claim_C3_last_le_freed (P : Nat) (choices : List Nat) (r : SimulationResult)
    (hP : 1 ≤ P) (hvalid : ∀ c ∈ choices, c < P)
    (hdone : run_simulation_loop (WorldState.new P) choices = .done r) :
    r.last_prisoner_interrogated_on_day ≤ r.prisoners_freed_on_day := by
  have hlen : (WorldState.new P).prisoners.length = P := by simp [WorldState.new]
  refine (run_loop_spec choices (WorldState.new P) (goodState_new P)
    (by rw [hlen]; omega) ?_).2 r hdone
  intro c hcmem
  rw [hlen]
  exact hvalid c hcmem

theorem claim_C3_witness :
    (SimulationResult.mk 0 0).last_prisoner_interrogated_on_day
      ≤ (SimulationResult.mk 0 0).prisoners_freed_on_day :=
  claim_C3_last_le_freed 1 [0] ⟨0, 0⟩ (Nat.le_refl 1) (by decide) (by decide)

/-- Claim C6: for every `P ≥ 1` and every valid selection sequence, the trial
loop never reaches the `unwrap`-on-`None` panic of
`last_prisoner_interrogated_on_day` in `run_simulation`: whenever `iterate`
reports termination, the full-coverage day has been recorded. -/
theorem claim_C6_unwrap_never_panics (P : Nat) (choices : List Nat)
    (hP : 1 ≤ P) (hvalid : ∀ c ∈ choices, c < P) :
    run_simulation_loop (WorldState.new P) choices ≠ .panicUnwrapNone := by
  have hlen : (WorldState.new P).prisoners.length = P := by simp [WorldState.new]
  refine (run_loop_spec choices (WorldState.new P) (goodState_new P)
    (by rw [hlen]; omega) ?_).1.2.2.2
  intro c hcmem
  rw [hlen]
  exact hvalid c hcmem

theorem claim_C6_witness :
    run_simulation_loop (WorldState.new 1) [0] ≠ .panicUnwrapNone :=
  claim_C6_unwrap_never_panics 1 [0] (Nat.le_refl 1) (by decide)

/-- Claim C4: `Prisoner::select_light_position(day, light_is_on, self_index)`
marks `self_index` known; if `day > 0` and the light is on it additionally
marks `(day - 1) % P` known; it leaves every other entry unchanged; and it
returns the updated entry at `day % P`. -/
theorem claim_C4_select_light_position (p : Prisoner) (day : Nat) (light_is_on : Bool)
    (self_index : Nat) (hpos : 0 < p.known_visited_prisoners.length)
    (hself : self_index < p.known_visited_prisoners.length) :
    (p.select_light_position day light_is_on self_index).1.known_visited_prisoners.length
        = p.known_visited_prisoners.length ∧
    (∀ j : Nat,
      (p.select_light_position day light_is_on self_index).1.known_visited_prisoners.getD j false
        = (p.known_visited_prisoners.getD j false || decide (j = self_index) ||
           (decide (0 < day) && light_is_on &&
            decide (j = (day - 1) % p.known_visited_prisoners.length)))) ∧
    (p.select_light_position day light_is_on self_index).2
      = (p.select_light_position day light_is_on self_index).1.known_visited_prisoners.getD
          (day % p.known_visited_prisoners.length) false :=
  select_light_position_spec p day light_is_on self_index hpos hself

theorem claim_C4_witness :
    ((Prisoner.mk [false, false, false]).select_light_position 1 true
        1).1.known_visited_prisoners.length
      = (Prisoner.mk [false, false, false]).known_visited_prisoners.length ∧
    (∀ j : Nat,
      ((Prisoner.mk [false, false, false]).select_light_position 1 true
          1).1.known_visited_prisoners.getD j false
        = ((Prisoner.mk [false, false, false]).known_visited_prisoners.getD j false ||
            decide (j = 1) ||
           (decide (0 < 1) && true &&
            decide (j = (1 - 1) %
              (Prisoner.mk [false, false, false]).known_visited_prisoners.length)))) ∧
    ((Prisoner.mk [false, false, false]).select_light_position 1 true 1).2
      = ((Prisoner.mk [false, false, false]).select_light_position 1 true
          1).1.known_visited_prisoners.getD
            (1 % (Prisoner.mk [false, false, false]).known_visited_prisoners.length) false :=
  claim_C4_select_light_position (Prisoner.mk [false, false, false]) 1 true 1
    (by decide) (by decide)

/-- Claim C7: with a single prisoner, every trial terminates on the very
first `iterate` call with `prisoners_freed_on_day = 0` and
`last_prisoner_interrogated_on_day = 0` (the only valid random choice with
`P = 1` is index `0`, and the rest of the sequence is irrelevant). -/
theorem claim_C7_single_prisoner (c : Nat) (cs : List Nat) (hc : c < 1) :
    run_simulation_loop (WorldState.new 1) (c :: cs) = .done ⟨0, 0⟩ := by
  have hc0 : c = 0 := by omega
  subst hc0
  rfl

theorem claim_C7_witness :
    run_simulation_loop (WorldState.new 1) [0] = .done ⟨0, 0⟩ :=
  claim_C7_single_prisoner 0 [] (by decide)

theorem foldl_add_eq_sum (results : List SimulationResult) (f : SimulationResult → Nat)
    (n : Nat) : results.foldl (fun sum r => sum + f r) n = n + (results.map f).sum := by
  induction results generalizing n with
  | nil => simp
  | cons r t ih =>
    rw [List.foldl_cons, ih, List.map_cons, List.sum_cons]
    omega

/-- Claim C8: for `R ≥ 1` trial results, the reported averages are exactly
the sums of the per-trial fields divided by `R` (Rust integer division), and
they are independent of the order of the results. -/
theorem claim_C8_average (R : Nat) (results : List SimulationResult)
    (hR : 1 ≤ R) (hlen : results.length = R) :
    average_runtime results R
        = some ((results.map (fun r => r.prisoners_freed_on_day)).sum / R) ∧
    average_last_interrogated_day results R
        = some ((results.map (fun r => r.last_prisoner_interrogated_on_day)).sum / R) ∧
    (∀ results' : List SimulationResult, results.Perm results' →
      average_runtime results' R = average_runtime results R ∧
      average_last_interrogated_day results' R
        = average_last_interrogated_day results R) := by
  have hR0 : ¬(R = 0) := by omega
  have havg : ∀ l : List SimulationResult,
      average_runtime l R = some ((l.map (fun r => r.prisoners_freed_on_day)).sum / R) := by
    intro l
    rw [average_runtime, if_neg hR0, foldl_add_eq_sum, Nat.zero_add]
  have hlastavg : ∀ l : List SimulationResult,
      average_last_interrogated_day l R
        = some ((l.map (fun r => r.last_prisoner_interrogated_on_day)).sum / R) := by
    intro l
    rw [average_last_interrogated_day, if_neg hR0, foldl_add_eq_sum, Nat.zero_add]
  refine ⟨havg results, hlastavg results, ?_⟩
  intro results' hperm
  rw [havg results, havg results', hlastavg results, hlastavg results',
    (hperm.map (fun r => r.prisoners_freed_on_day)).sum_eq,
    (hperm.map (fun r => r.last_prisoner_interrogated_on_day)).sum_eq]
  exact ⟨rfl, rfl⟩

theorem claim_C8_witness :
    average_runtime [⟨3, 10⟩, ⟨4, 20⟩, ⟨5, 30⟩] 3 = some 20 := by
  have h := claim_C8_average 3 [⟨3, 10⟩, ⟨4, 20⟩, ⟨5, 30⟩] (by decide) (by decide)
  rw [h.1]
  decide

theorem select_mono (p : Prisoner) (day : Nat) (light_is_on : Bool) (self_index : Nat)
    (i : Nat) (hi : p.known_visited_prisoners.getD i false = true) :
    (p.select_light_position day light_is_on self_index).1.known_visited_prisoners.getD
      i false = true := by
  show (Prisoner.select_light_position p day light_is_on self_index).1.known_visited_prisoners.getD i false = true
  simp only [Prisoner.select_light_position, Prisoner.get_todays_prisoner_indexes]
  split
  · simp only [List.foldl_cons, List.foldl_nil]
    exact interrogated_set_keep _ _ _ (interrogated_set_keep _ _ _ hi)
  · exact interrogated_set_keep _ _ _ hi

/-- Claim C10: one `iterate` call mutates only the chosen prisoner's
knowledge: every other prisoner is exactly unchanged, no `true` knowledge
entry of any prisoner is reset, and no `true` entry of
`interrogated_prisoners` is reset. -/
theorem claim_C10_frame (s : WorldState) (c : Nat) (s' : WorldState) (fin : Bool)
    (h : s.iterate c = .ok s' fin) :
    (∀ j, j < s.prisoners.length → j ≠ c →
      s'.prisoners.getD j default = s.prisoners.getD j default) ∧
    (∀ j i, (s.prisoners.getD j default).known_visited_prisoners.getD i false = true →
      (s'.prisoners.getD j default).known_visited_prisoners.getD i false = true) ∧
    (∀ i, s.interrogated_prisoners.getD i false = true →
      s'.interrogated_prisoners.getD i false = true) := by
  simp only [WorldState.iterate] at h
  by_cases hP : s.prisoners.length = 0
  · rw [if_pos hP] at h
    cases h
  rw [if_neg hP] at h
  by_cases hc : c < s.prisoners.length
  case neg =>
    rw [dif_neg hc] at h
    cases h
  rw [dif_pos hc] at h
  split at h
  · cases h
  split at h
  all_goals (
    injection h with h1 h2
    subst h1
    subst h2
    refine ⟨?_, ?_, ?_⟩
    · intro j _ hjc
      show (s.prisoners.set c _).getD j default = s.prisoners.getD j default
      rw [getD_set]
      have : ¬(c = j ∧ j < s.prisoners.length) := fun hcj => hjc hcj.1.symm
      rw [if_neg this]
    · intro j i hji
      show ((s.prisoners.set c _).getD j default).known_visited_prisoners.getD i false = true
      rw [getD_set]
      split
      · rename_i hcj
        obtain ⟨hcj, hjlen⟩ := hcj
        subst hcj
        rw [List.getD_eq_getElem _ _ hjlen] at hji
        exact select_mono _ _ _ _ _ hji
      · exact hji
    · intro i hi
      exact interrogated_set_keep _ _ _ hi)

theorem claim_C10_witness :
    (∀ j, j < (WorldState.new 2).prisoners.length → j ≠ 0 →
      (WorldState.mk [Prisoner.mk [true, false], Prisoner.mk [false, false]]
        [true, false] 1 true none).prisoners.getD j default
        = (WorldState.new 2).prisoners.getD j default) ∧
    (∀ j i, ((WorldState.new 2).prisoners.getD j default).known_visited_prisoners.getD
        i false = true →
      ((WorldState.mk [Prisoner.mk [true, false], Prisoner.mk [false, false]]
        [true, false] 1 true none).prisoners.getD
          j default).known_visited_prisoners.getD i false = true) ∧
    (∀ i, (WorldState.new 2).interrogated_prisoners.getD i false = true →
      (WorldState.mk [Prisoner.mk [true, false], Prisoner.mk [false, false]]
        [true, false] 1 true none).interrogated_prisoners.getD i false = true) :=
  claim_C10_frame (WorldState.new 2) 0
    (WorldState.mk [Prisoner.mk [true, false], Prisoner.mk [false, false]]
      [true, false] 1 true none) false (by decide)

/-- Claim C5 counterexample: the program performs no configuration
validation.  With `repetitions == 0` the aggregation in `main` divides by
zero (modelled as `none`), and with `prisoner-count == 0` the very first
`iterate` call panics sampling the empty range `gen_range(0, 0)` — so the
configuration is surfaced as a mid-run crash, not as a validation error. -/
theorem claim_C5_counterexample :
    average_runtime [] 0 = none ∧
    average_last_interrogated_day [] 0 = none ∧
    (WorldState.new 0).iterate 0 = .panicEmptyRange ∧
    run_simulation_loop (WorldState.new 0) [0] = .panicEmptyRange := by
  decide

/-- Claim C5 (amended): the program never validates its configuration; it
crashes with a division-by-zero panic in the aggregation when
`repetitions == 0` and with an empty-range sampling panic on the first
`iterate` when `prisoner-count == 0`.  Conversely, when `repetitions ≥ 1`
the aggregation performs no division by zero, and when `prisoner-count ≥ 1`
`iterate` never hits the empty-range panic. -/
theorem claim_C5_no_validation (R : Nat) (results : List SimulationResult)
    (s : WorldState) (c : Nat) (hR : 1 ≤ R) (hs : 1 ≤ s.prisoners.length) :
    (average_runtime results R).isSome = true ∧
    (average_last_interrogated_day results R).isSome = true ∧
    s.iterate c ≠ .panicEmptyRange := by
  have hR0 : ¬(R = 0) := by omega
  refine ⟨?_, ?_, ?_⟩
  · simp [average_runtime, hR0]
  · simp [average_last_interrogated_day, hR0]
  · simp only [WorldState.iterate]
    rw [if_neg (by omega : ¬(s.prisoners.length = 0))]
    split
    · split
      · simp
      · split <;> simp
    · simp

theorem claim_C5_witness :
    (average_runtime [⟨0, 0⟩] 1).isSome = true ∧
    (average_last_interrogated_day [⟨0, 0⟩] 1).isSome = true ∧
    (WorldState.new 1).iterate 0 ≠ .panicEmptyRange :=
  claim_C5_no_validation 1 [⟨0, 0⟩] (WorldState.new 1) 0 (Nat.le_refl 1) (by decide)

theorem bool_eq_of_iff {a b : Bool} (h : a = true ↔ b = true) : a = b := by
  cases a <;> cases b <;> simp_all

/-- A world state whose tables are images of functions over `List.range P`,
used to run the simulation symbolically on a parametric population size. -/
def canonState (P : Nat) (kf : Nat → Nat → Bool) (ig : Nat → Bool) (d : Nat) (L : Bool)
    (last : Option Nat) : WorldState :=
  ⟨(List.range P).map (fun i => Prisoner.mk ((List.range P).map (kf i))),
   (List.range P).map ig, d, L, last⟩

/-- The knowledge table of the chosen prisoner after `select_light_position`,
as a function: the old table, plus the chosen index, plus (when `day > 0` and
the light is on) the previous day's designated index. -/
def learnFn (P d : Nat) (L : Bool) (c : Nat) (v : Nat → Bool) : Nat → Bool :=
  fun x => v x || decide (x = c) || (decide (0 < d) && L && decide (x = (d - 1) % P))

/-- The interrogated table after marking the chosen index. -/
def igFn (c : Nat) (ig : Nat → Bool) : Nat → Bool :=
  fun x => ig x || decide (x = c)

theorem canonState_congr (P : Nat) (kf kf' : Nat → Nat → Bool) (ig ig' : Nat → Bool)
    (d d' : Nat) (L L' : Bool) (last last' : Option Nat)
    (hkf : ∀ i, i < P → ∀ x, x < P → kf i x = kf' i x)
    (hig : ∀ x, x < P → ig x = ig' x) (hd : d = d') (hL : L = L') (hlast : last = last') :
    canonState P kf ig d L last = canonState P kf' ig' d' L' last' := by
  have h1 : (List.range P).map (fun i => Prisoner.mk ((List.range P).map (kf i)))
      = (List.range P).map (fun i => Prisoner.mk ((List.range P).map (kf' i))) :=
    map_range_congr (fun i hi => by
      rw [map_range_congr (fun x hx => hkf i hi x hx)])
  have h2 : (List.range P).map ig = (List.range P).map ig' := map_range_congr hig
  unfold canonState
  rw [h1, h2, hd, hL, hlast]

theorem select_canon (P d : Nat) (L : Bool) (c : Nat) (v : Nat → Bool)
    (hP : 0 < P) (hc : c < P) :
    (Prisoner.mk ((List.range P).map v)).select_light_position d L c
      = (Prisoner.mk ((List.range P).map (learnFn P d L c v)),
         learnFn P d L c v (d % P)) := by
  have hmod : (d - 1) % P < P := Nat.mod_lt _ hP
  have hdm : d % P < P := Nat.mod_lt _ hP
  unfold Prisoner.select_light_position Prisoner.get_todays_prisoner_indexes
  simp only [List.length_map, List.length_range, List.length_set, List.foldl_cons,
    List.foldl_nil, List.all_cons, List.all_nil, Bool.and_true]
  split
  case isTrue hdl =>
    obtain ⟨hd0, hLt⟩ := hdl
    rw [set_map_range, set_map_range]
    have hfun : ∀ x, x < P →
        (if x = (d - 1) % P ∧ (d - 1) % P < P then true
         else if x = c ∧ c < P then true else v x) = learnFn P d L c v x := by
      intro x _
      simp only [learnFn]
      rw [hLt]
      by_cases h1 : x = (d - 1) % P
      · simp [h1, hmod, hd0]
      · by_cases h2 : x = c
        · simp [h1, h2, hc]
        · simp [h1, h2]
    have hmap : (List.range P).map
        (fun x => if x = (d - 1) % P ∧ (d - 1) % P < P then true
                  else if x = c ∧ c < P then true else v x)
        = (List.range P).map (learnFn P d L c v) := map_range_congr hfun
    rw [hmap]
    simp only [List.length_map, List.length_range]
    rw [getD_map_range, if_pos hdm]
  case isFalse hdl =>
    rw [set_map_range]
    have hLfalse : (decide (0 < d) && L) = false := by
      rcases Nat.eq_zero_or_pos d with hd | hd
      · subst hd
        simp
      · have hL0 : L = false := by
          cases L
          · rfl
          · exact absurd ⟨hd, rfl⟩ hdl
        rw [hL0]
        simp
    have hfun : ∀ x, x < P →
        (if x = c ∧ c < P then true else v x) = learnFn P d L c v x := by
      intro x _
      simp only [learnFn]
      rw [hLfalse]
      by_cases h2 : x = c
      · simp [h2, hc]
      · simp [h2]
    have hmap : (List.range P).map (fun x => if x = c ∧ c < P then true else v x)
        = (List.range P).map (learnFn P d L c v) := map_range_congr hfun
    rw [hmap]
    simp only [List.length_map, List.length_range]
    rw [getD_map_range, if_pos hdm]

theorem iterate_eq_of_lt (s : WorldState) (c : Nat) (hc : c < s.prisoners.length) :
    s.iterate c =
      (if ((s.prisoners.get ⟨c, hc⟩).select_light_position
            s.day s.light_is_on c).1.count_known
          > count_true (s.interrogated_prisoners.set c true) then .panicOverEstimate
       else if ((s.prisoners.get ⟨c, hc⟩).select_light_position
            s.day s.light_is_on c).1.count_known = s.prisoners.length then
         .ok ⟨s.prisoners.set c ((s.prisoners.get ⟨c, hc⟩).select_light_position
                s.day s.light_is_on c).1,
              s.interrogated_prisoners.set c true, s.day,
              ((s.prisoners.get ⟨c, hc⟩).select_light_position s.day s.light_is_on c).2,
              match s.last_prisoner_interrogated_on_day with
              | some d => some d
              | none => if count_true (s.interrogated_prisoners.set c true)
                    = s.prisoners.length then some s.day else none⟩ true
       else
         .ok ⟨s.prisoners.set c ((s.prisoners.get ⟨c, hc⟩).select_light_position
                s.day s.light_is_on c).1,
              s.interrogated_prisoners.set c true, s.day + 1,
              ((s.prisoners.get ⟨c, hc⟩).select_light_position s.day s.light_is_on c).2,
              match s.last_prisoner_interrogated_on_day with
              | some d => some d
              | none => if count_true (s.interrogated_prisoners.set c true)
                    = s.prisoners.length then some s.day else none⟩ false) := by
  simp only [WorldState.iterate]
  rw [if_neg (by omega : ¬(s.prisoners.length = 0)), dif_pos hc]

/-- One symbolic `iterate` step on a canonical state. -/
theorem iterate_canon (P d : Nat) (L : Bool) (kf : Nat → Nat → Bool) (ig : Nat → Bool)
    (last : Option Nat) (c : Nat) (hP : 0 < P) (hc : c < P) :
    (canonState P kf ig d L last).iterate c =
      (if count_true ((List.range P).map (learnFn P d L c (kf c)))
          > count_true ((List.range P).map (igFn c ig)) then .panicOverEstimate
       else if count_true ((List.range P).map (learnFn P d L c (kf c))) = P then
         .ok (canonState P (fun i => if i = c then learnFn P d L c (kf c) else kf i)
               (igFn c ig) d (learnFn P d L c (kf c) (d % P))
               (match last with
                | some d0 => some d0
                | none => if count_true ((List.range P).map (igFn c ig)) = P
                          then some d else none)) true
       else
         .ok (canonState P (fun i => if i = c then learnFn P d L c (kf c) else kf i)
               (igFn c ig) (d + 1) (learnFn P d L c (kf c) (d % P))
               (match last with
                | some d0 => some d0
                | none => if count_true ((List.range P).map (igFn c ig)) = P
                          then some d else none)) false) := by
  have hc' : c < (canonState P kf ig d L last).prisoners.length := by
    simp [canonState]
    exact hc
  rw [iterate_eq_of_lt _ c hc']
  have hget : (canonState P kf ig d L last).prisoners.get ⟨c, hc'⟩
      = Prisoner.mk ((List.range P).map (kf c)) := by
    simp only [canonState, List.get_eq_getElem, List.getElem_map, List.getElem_range]
  have hday : (canonState P kf ig d L last).day = d := rfl
  have hlight : (canonState P kf ig d L last).light_is_on = L := rfl
  have hlast : (canonState P kf ig d L last).last_prisoner_interrogated_on_day = last := rfl
  rw [hget, hday, hlight, hlast]
  rw [select_canon P d L c (kf c) hP hc]
  have hig : (canonState P kf ig d L last).interrogated_prisoners.set c true
      = (List.range P).map (igFn c ig) := by
    show ((List.range P).map ig).set c true = _
    rw [set_map_range]
    refine map_range_congr (fun x hx => ?_)
    by_cases hxc : x = c
    · simp [hxc, hc, igFn]
    · simp [hxc, igFn]
  rw [hig]
  have hpris : (canonState P kf ig d L last).prisoners.set c
        (Prisoner.mk ((List.range P).map (learnFn P d L c (kf c))))
      = (List.range P).map (fun i => Prisoner.mk ((List.range P).map
          ((fun i => if i = c then learnFn P d L c (kf c) else kf i) i))) := by
    show ((List.range P).map (fun i => Prisoner.mk ((List.range P).map (kf i)))).set c _ = _
    rw [set_map_range]
    refine map_range_congr (fun x hx => ?_)
    by_cases hxc : x = c
    · simp [hxc, hc]
    · simp [hxc]
  rw [hpris]
  have hcount : (Prisoner.mk ((List.range P).map (learnFn P d L c (kf c)))).count_known
      = count_true ((List.range P).map (learnFn P d L c (kf c))) := rfl
  rw [hcount]
  have hplen : (canonState P kf ig d L last).prisoners.length = P := by
    simp [canonState]
  rw [hplen]
  rfl

/-- Continue step, case where ground truth has not yet reached full
coverage: the recorded day stays `none`. -/
theorem iterate_canon_continue_notfull (P d : Nat) (L : Bool) (kf : Nat → Nat → Bool)
    (ig : Nat → Bool) (c : Nat) (hP : 0 < P) (hc : c < P)
    (hsub : ∀ x, x < P → learnFn P d L c (kf c) x = true → igFn c ig x = true)
    (x1 : Nat) (hx1 : x1 < P) (hx1f : igFn c ig x1 = false) :
    (canonState P kf ig d L none).iterate c =
      .ok (canonState P (fun i => if i = c then learnFn P d L c (kf c) else kf i)
            (igFn c ig) (d + 1) (learnFn P d L c (kf c) (d % P)) none) false := by
  rw [iterate_canon P d L kf ig none c hP hc]
  have hmono := count_true_map_range_mono P _ _ hsub
  have hlt := count_true_map_range_lt P _ x1 hx1 hx1f
  rw [if_neg (by omega), if_neg (by omega)]
  have hlast : (if count_true ((List.range P).map (igFn c ig)) = P
      then some d else none) = (none : Option Nat) := by
    rw [if_neg (by omega)]
  simp only [hlast]

/-- Continue step, case where the chosen index completes ground-truth
coverage: the recorded day becomes `some d`. -/
theorem iterate_canon_continue_full (P d : Nat) (L : Bool) (kf : Nat → Nat → Bool)
    (ig : Nat → Bool) (c : Nat) (hP : 0 < P) (hc : c < P)
    (hsub : ∀ x, x < P → learnFn P d L c (kf c) x = true → igFn c ig x = true)
    (x0 : Nat) (hx0 : x0 < P) (hx0f : learnFn P d L c (kf c) x0 = false)
    (hfull : ∀ x, x < P → igFn c ig x = true) :
    (canonState P kf ig d L none).iterate c =
      .ok (canonState P (fun i => if i = c then learnFn P d L c (kf c) else kf i)
            (igFn c ig) (d + 1) (learnFn P d L c (kf c) (d % P)) (some d)) false := by
  rw [iterate_canon P d L kf ig none c hP hc]
  have hmono := count_true_map_range_mono P _ _ hsub
  have hlt := count_true_map_range_lt P _ x0 hx0 hx0f
  have hfullc := count_true_map_range_full P _ hfull
  rw [if_neg (by omega), if_neg (by omega)]
  have hlast : (if count_true ((List.range P).map (igFn c ig)) = P
      then some d else none) = some d := by
    rw [if_pos hfullc]
  simp only [hlast]

/-- Terminating step: the chosen prisoner's updated knowledge is complete. -/
theorem iterate_canon_terminate (P d : Nat) (L : Bool) (kf : Nat → Nat → Bool)
    (ig : Nat → Bool) (d0 : Nat) (c : Nat) (hP : 0 < P) (hc : c < P)
    (hsub : ∀ x, x < P → learnFn P d L c (kf c) x = true → igFn c ig x = true)
    (hfull : ∀ x, x < P → learnFn P d L c (kf c) x = true) :
    (canonState P kf ig d L (some d0)).iterate c =
      .ok (canonState P (fun i => if i = c then learnFn P d L c (kf c) else kf i)
            (igFn c ig) d (learnFn P d L c (kf c) (d % P)) (some d0)) true := by
  rw [iterate_canon P d L kf ig (some d0) c hP hc]
  have hmono := count_true_map_range_mono P _ _ hsub
  have hfullc := count_true_map_range_full P _ hfull
  rw [if_neg (by omega), if_pos hfullc]

theorem run_cons_continue {s : WorldState} {c : Nat} {s' : WorldState} {rest : List Nat}
    (h : s.iterate c = .ok s' false) :
    run_simulation_loop s (c :: rest) = run_simulation_loop s' rest := by
  simp only [run_simulation_loop, h]

theorem run_cons_done {s : WorldState} {c : Nat} {s' : WorldState} {rest : List Nat}
    {d0 : Nat} (h : s.iterate c = .ok s' true)
    (hlast : s'.last_prisoner_interrogated_on_day = some d0) :
    run_simulation_loop s (c :: rest) = .done ⟨d0, s'.day⟩ := by
  simp only [run_simulation_loop, h, hlast]

theorem bool_eq_false_of_not {b : Bool} (h : ¬ b = true) : b = false := by
  cases b
  · rfl
  · exact absurd rfl h

/-- `m` consecutive (lighter, learner) day pairs: choices
`[s, k, s + 2, k, s + 4, k, ...]`. -/
def pairList (k : Nat) : Nat → Nat → List Nat
  | _, 0 => []
  | start, m + 1 => start :: k :: pairList k (start + 2) m

/-- A fixed selection sequence of length at most `2 P` that terminates the
trial by day `2 P - 1`: interleave self-lighting prisoners with the learner
`P - 1` over the even designated slots, re-align with filler days, then do
the same over the odd slots. -/
def schedule (P : Nat) : List Nat :=
  pairList (P - 1) 0 (P / 2) ++ (if P % 2 = 0 then [0] else [0, 0])
    ++ pairList (P - 1) 1 ((P - 1) / 2)

/-- Knowledge tables before phase-1 pair `j`: lighter `i` (even, `i < 2 j`)
knows itself; the learner `P - 1` knows itself and the even slots below
`2 j`; everyone else knows nothing. -/
def kf1 (P j : Nat) : Nat → Nat → Bool := fun i x =>
  if i = P - 1 then
    decide (0 < j) && (decide (x = P - 1) || (decide (x % 2 = 0) && decide (x < 2*j)))
  else decide (x = i) && decide (i % 2 = 0) && decide (i < 2*j)

/-- Interrogated table before phase-1 pair `j`. -/
def ig1 (P j : Nat) : Nat → Bool := fun x =>
  (decide (x % 2 = 0) && decide (x < 2*j)) || (decide (x = P - 1) && decide (0 < j))

/-- The world state before phase-1 pair `j` (day `2 j`). -/
def state1 (P j : Nat) : WorldState :=
  canonState P (kf1 P j) (ig1 P j) (2*j) (decide (2*j = P)) none

/-- Knowledge tables before phase-2 pair `t` (day `P + 1 + 2 t`). -/
def kf2 (P t : Nat) : Nat → Nat → Bool := fun i x =>
  if i = P - 1 then
    decide (x = P - 1) || decide (x % 2 = 0) || (decide (x % 2 = 1) && decide (x < 2*t))
  else if i % 2 = 0 then
    decide (x = i) || (decide (i = 0) && decide (P % 2 = 0) && decide (x = P - 1))
  else decide (i < 2*t) && (decide (x = i) || decide (x = i - 1))

/-- Interrogated table before phase-2 pair `t`. -/
def ig2 (P t : Nat) : Nat → Bool := fun x =>
  decide (x % 2 = 0) || decide (x = P - 1) || (decide (x % 2 = 1) && decide (x < 2*t))

/-- The world state before phase-2 pair `t`. -/
def state2 (P t : Nat) : WorldState :=
  canonState P (kf2 P t) (ig2 P t) (P + 1 + 2*t) true none

theorem kf1_at_k (P j x : Nat) : kf1 P j (P - 1) x
    = (decide (0 < j) && (decide (x = P - 1) || (decide (x % 2 = 0) && decide (x < 2*j)))) :=
  if_pos rfl

theorem kf1_at_ne (P j i x : Nat) (h : ¬(i = P - 1)) : kf1 P j i x
    = (decide (x = i) && decide (i % 2 = 0) && decide (i < 2*j)) :=
  if_neg h

theorem kf2_at_k (P t x : Nat) : kf2 P t (P - 1) x
    = (decide (x = P - 1) || decide (x % 2 = 0) || (decide (x % 2 = 1) && decide (x < 2*t))) :=
  if_pos rfl

theorem kf2_at_even (P t i x : Nat) (h : ¬(i = P - 1)) (he : i % 2 = 0) : kf2 P t i x
    = (decide (x = i) || (decide (i = 0) && decide (P % 2 = 0) && decide (x = P - 1))) := by
  show (if i = P - 1 then _ else if i % 2 = 0 then _ else _) = _
  rw [if_neg h, if_pos he]

theorem kf2_at_odd (P t i x : Nat) (h : ¬(i = P - 1)) (ho : ¬(i % 2 = 0)) : kf2 P t i x
    = (decide (i < 2*t) && (decide (x = i) || decide (x = i - 1))) := by
  show (if i = P - 1 then _ else if i % 2 = 0 then _ else _) = _
  rw [if_neg h, if_neg ho]

theorem phase1_step (P j : Nat) (hP : 3 ≤ P) (hj : j + 1 ≤ P / 2) (rest : List Nat) :
    run_simulation_loop (state1 P j) (2*j :: (P - 1) :: rest)
      = run_simulation_loop (state1 P (j + 1)) rest := by
  have hPpos : 0 < P := by omega
  have h2j2 : 2*j + 2 ≤ P := by omega
  have h2jP : 2*j < P := by omega
  have h2j1P : 2*j + 1 < P := by omega
  have hknot : ¬(2*j = P - 1) := by omega
  have hknot' : ¬(P - 1 = 2*j) := by omega
  have hL1 : decide (2*j = P) = false := by
    simp only [decide_eq_false_iff_not]
    omega
  have hstate : state1 P j = canonState P (kf1 P j) (ig1 P j) (2*j) false none := by
    rw [state1, hL1]
  have hmodA : (2*j) % P = 2*j := Nat.mod_eq_of_lt h2jP
  have hmodB : (2*j + 1) % P = 2*j + 1 := Nat.mod_eq_of_lt h2j1P
  have hmodC : (2*j + 1 - 1) % P = 2*j := by
    rw [Nat.add_sub_cancel]
    exact hmodA
  -- step A: the self-lighting prisoner 2*j
  have hsubA : ∀ x, x < P → learnFn P (2*j) false (2*j) (kf1 P j (2*j)) x = true →
      igFn (2*j) (ig1 P j) x = true := by
    intro x hx h
    simp only [learnFn, kf1, igFn, ig1] at h ⊢
    rw [if_neg hknot] at h
    simp only [Bool.and_false, Bool.false_and, Bool.or_false, Bool.or_eq_true,
      Bool.and_eq_true, decide_eq_true_eq, true_and, and_true, iff_true, true_iff] at h ⊢
    omega
  have hx1A : igFn (2*j) (ig1 P j) 1 = false := by
    apply bool_eq_false_of_not
    intro h
    simp only [igFn, ig1, Bool.or_eq_true, Bool.and_eq_true, decide_eq_true_eq, true_and, and_true, iff_true, true_iff] at h
    omega
  have hstepA := iterate_canon_continue_notfull P (2*j) false (kf1 P j) (ig1 P j) (2*j)
    hPpos h2jP hsubA 1 (by omega) hx1A
  have houtA : learnFn P (2*j) false (2*j) (kf1 P j (2*j)) ((2*j) % P) = true := by
    rw [hmodA]
    simp only [learnFn]
    simp
  rw [houtA] at hstepA
  -- step B: the learner P - 1
  have hsubB : ∀ x, x < P → learnFn P (2*j + 1) true (P - 1)
      ((fun i => if i = 2*j then learnFn P (2*j) false (2*j) (kf1 P j (2*j))
        else kf1 P j i) (P - 1)) x = true →
      igFn (P - 1) (igFn (2*j) (ig1 P j)) x = true := by
    intro x hx h
    simp only [learnFn] at h
    rw [if_neg hknot', kf1_at_k, hmodC] at h
    simp only [igFn, ig1]
    simp only [Bool.and_true, Bool.true_and, Bool.or_eq_true, Bool.and_eq_true,
      decide_eq_true_eq, true_and, and_true, iff_true, true_iff] at h ⊢
    omega
  have hx1B : igFn (P - 1) (igFn (2*j) (ig1 P j)) 1 = false := by
    apply bool_eq_false_of_not
    intro h
    simp only [igFn, ig1, Bool.or_eq_true, Bool.and_eq_true, decide_eq_true_eq, true_and, and_true, iff_true, true_iff] at h
    omega
  have hstepB := iterate_canon_continue_notfull P (2*j + 1) true
    (fun i => if i = 2*j then learnFn P (2*j) false (2*j) (kf1 P j (2*j)) else kf1 P j i)
    (igFn (2*j) (ig1 P j)) (P - 1) hPpos (by omega) hsubB 1 (by omega) hx1B
  -- the resulting state is `state1 P (j + 1)`
  have hfinal : canonState P
      (fun i => if i = P - 1 then
        learnFn P (2*j + 1) true (P - 1)
          ((fun i => if i = 2*j then learnFn P (2*j) false (2*j) (kf1 P j (2*j))
            else kf1 P j i) (P - 1))
        else (fun i => if i = 2*j then learnFn P (2*j) false (2*j) (kf1 P j (2*j))
            else kf1 P j i) i)
      (igFn (P - 1) (igFn (2*j) (ig1 P j))) (2*j + 1 + 1)
      (learnFn P (2*j + 1) true (P - 1)
        ((fun i => if i = 2*j then learnFn P (2*j) false (2*j) (kf1 P j (2*j))
          else kf1 P j i) (P - 1)) ((2*j + 1) % P)) none
      = state1 P (j + 1) := by
    rw [state1]
    refine canonState_congr P _ _ _ _ _ _ _ _ _ _ ?_ ?_ (by omega) ?_ rfl
    · intro i hi x hx
      show (if i = P - 1 then
          learnFn P (2*j + 1) true (P - 1)
            ((fun i => if i = 2*j then learnFn P (2*j) false (2*j) (kf1 P j (2*j))
              else kf1 P j i) (P - 1))
          else (fun i => if i = 2*j then learnFn P (2*j) false (2*j) (kf1 P j (2*j))
            else kf1 P j i) i) x = kf1 P (j + 1) i x
      by_cases hiP : i = P - 1
      · rw [if_pos hiP, hiP]
        simp only [learnFn]
        rw [if_neg hknot', kf1_at_k, hmodC, kf1_at_k]
        rw [Bool.eq_iff_iff]
        simp only [Bool.and_true, Bool.true_and, Bool.or_eq_true, Bool.and_eq_true,
          decide_eq_true_eq, true_and, and_true, iff_true, true_iff]
        omega
      · rw [if_neg hiP]
        show (if i = 2*j then learnFn P (2*j) false (2*j) (kf1 P j (2*j))
          else kf1 P j i) x = kf1 P (j + 1) i x
        by_cases hi2j : i = 2*j
        · rw [if_pos hi2j, hi2j]
          simp only [learnFn]
          rw [kf1_at_ne P j (2*j) x hknot, kf1_at_ne P (j + 1) (2*j) x hknot]
          rw [Bool.eq_iff_iff]
          simp only [Bool.and_false, Bool.false_and, Bool.or_false, Bool.or_eq_true,
            Bool.and_eq_true, decide_eq_true_eq, true_and, and_true, iff_true, true_iff]
          omega
        · rw [if_neg hi2j, kf1_at_ne P j i x hiP, kf1_at_ne P (j + 1) i x hiP]
          rw [Bool.eq_iff_iff]
          simp only [Bool.and_eq_true, decide_eq_true_eq, true_and, and_true, iff_true, true_iff]
          omega
    · intro x hx
      simp only [igFn, ig1]
      rw [Bool.eq_iff_iff]
      simp only [Bool.or_eq_true, Bool.and_eq_true, decide_eq_true_eq, true_and, and_true, iff_true, true_iff]
      omega
    · rw [hmodB]
      simp only [learnFn]
      rw [if_neg hknot', kf1_at_k, hmodC]
      rw [Bool.eq_iff_iff]
      simp only [Bool.and_true, Bool.true_and, Bool.or_eq_true, Bool.and_eq_true,
        decide_eq_true_eq, true_and, and_true, iff_true, true_iff]
      omega
  rw [hstate, run_cons_continue hstepA, run_cons_continue hstepB, hfinal]

theorem phase1_chain (P : Nat) (hP : 3 ≤ P) :
    ∀ m j, j + m = P / 2 → ∀ rest : List Nat,
      run_simulation_loop (state1 P j) (pairList (P - 1) (2*j) m ++ rest)
        = run_simulation_loop (state1 P (P / 2)) rest := by
  intro m
  induction m with
  | zero =>
    intro j hj rest
    have hjE : j = P / 2 := by omega
    subst hjE
    rfl
  | succ m ih =>
    intro j hj rest
    have hpl : pairList (P - 1) (2*j) (m + 1)
        = 2*j :: (P - 1) :: pairList (P - 1) (2*j + 2) m := rfl
    rw [hpl, List.cons_append, List.cons_append,
      phase1_step P j hP (by omega)]
    have h2 : 2*j + 2 = 2*(j + 1) := by omega
    rw [h2]
    exact ih (j + 1) (by omega) rest

theorem filler_even (P : Nat) (hP : 3 ≤ P) (hPe : P % 2 = 0) (rest : List Nat) :
    run_simulation_loop (state1 P (P / 2)) (0 :: rest)
      = run_simulation_loop (state2 P 0) rest := by
  have hPpos : 0 < P := by omega
  have h0k : ¬(0 = P - 1) := by omega
  have hL : decide (2 * (P / 2) = P) = true := by
    simp only [decide_eq_true_eq, true_and, and_true, iff_true, true_iff]
    omega
  have hE : 2 * (P / 2) = P := by omega
  have hstate : state1 P (P / 2) = canonState P (kf1 P (P / 2)) (ig1 P (P / 2)) P true none := by
    rw [state1, hL, hE]
  have hm1 : (P - 1) % P = P - 1 := Nat.mod_eq_of_lt (by omega)
  have hmP : P % P = 0 := Nat.mod_self P
  have hsub : ∀ x, x < P → learnFn P P true 0 (kf1 P (P / 2) 0) x = true →
      igFn 0 (ig1 P (P / 2)) x = true := by
    intro x hx h
    simp only [learnFn] at h
    rw [kf1_at_ne P (P / 2) 0 x h0k, hm1] at h
    simp only [igFn, ig1]
    simp only [Bool.and_true, Bool.true_and, Bool.or_eq_true, Bool.and_eq_true,
      decide_eq_true_eq, true_and, and_true, iff_true, true_iff] at h ⊢
    omega
  have hx1 : igFn 0 (ig1 P (P / 2)) 1 = false := by
    apply bool_eq_false_of_not
    intro h
    simp only [igFn, ig1, Bool.or_eq_true, Bool.and_eq_true, decide_eq_true_eq, true_and, and_true, iff_true, true_iff] at h
    omega
  have hstep := iterate_canon_continue_notfull P P true (kf1 P (P / 2)) (ig1 P (P / 2)) 0
    hPpos hPpos hsub 1 (by omega) hx1
  have hout : learnFn P P true 0 (kf1 P (P / 2) 0) (P % P) = true := by
    rw [hmP]
    simp only [learnFn]
    simp
  rw [hout] at hstep
  have hfinal : canonState P
      (fun i => if i = 0 then learnFn P P true 0 (kf1 P (P / 2) 0) else kf1 P (P / 2) i)
      (igFn 0 (ig1 P (P / 2))) (P + 1) true none = state2 P 0 := by
    rw [state2]
    refine canonState_congr P _ _ _ _ _ _ _ _ _ _ ?_ ?_ (by omega) rfl rfl
    · intro i hi x hx
      show (if i = 0 then learnFn P P true 0 (kf1 P (P / 2) 0) else kf1 P (P / 2) i) x
        = kf2 P 0 i x
      by_cases hi0 : i = 0
      · rw [if_pos hi0, hi0, kf2_at_even P 0 0 x h0k (by omega)]
        simp only [learnFn]
        rw [kf1_at_ne P (P / 2) 0 x h0k, hm1]
        rw [Bool.eq_iff_iff]
        simp only [Bool.and_true, Bool.true_and, Bool.or_eq_true, Bool.and_eq_true,
          decide_eq_true_eq, true_and, and_true, iff_true, true_iff]
        omega
      · rw [if_neg hi0]
        by_cases hiP : i = P - 1
        · rw [hiP, kf1_at_k, kf2_at_k]
          rw [Bool.eq_iff_iff]
          simp only [Bool.or_eq_true, Bool.and_eq_true, decide_eq_true_eq, true_and, and_true, iff_true, true_iff]
          omega
        · by_cases hie : i % 2 = 0
          · rw [kf1_at_ne P (P / 2) i x hiP, kf2_at_even P 0 i x hiP hie]
            rw [Bool.eq_iff_iff]
            simp only [Bool.or_eq_true, Bool.and_eq_true, decide_eq_true_eq, true_and, and_true, iff_true, true_iff]
            omega
          · rw [kf1_at_ne P (P / 2) i x hiP, kf2_at_odd P 0 i x hiP hie]
            rw [Bool.eq_iff_iff]
            simp only [Bool.or_eq_true, Bool.and_eq_true, decide_eq_true_eq, true_and, and_true, iff_true, true_iff]
            omega
    · intro x hx
      simp only [igFn, ig1, ig2]
      rw [Bool.eq_iff_iff]
      simp only [Bool.or_eq_true, Bool.and_eq_true, decide_eq_true_eq, true_and, and_true, iff_true, true_iff]
      omega
  rw [hstate, run_cons_continue hstep, hfinal]

theorem filler_odd (P : Nat) (hP : 3 ≤ P) (hPo : P % 2 = 1) (rest : List Nat) :
    run_simulation_loop (state1 P (P / 2)) (0 :: 0 :: rest)
      = run_simulation_loop (state2 P 0) rest := by
  have hPpos : 0 < P := by omega
  have h0k : ¬(0 = P - 1) := by omega
  have hL : decide (2 * (P / 2) = P) = false := by
    simp only [decide_eq_false_iff_not]
    omega
  have hE : 2 * (P / 2) = P - 1 := by omega
  have hstate : state1 P (P / 2)
      = canonState P (kf1 P (P / 2)) (ig1 P (P / 2)) (P - 1) false none := by
    rw [state1, hL, hE]
  have hm1 : (P - 1) % P = P - 1 := Nat.mod_eq_of_lt (by omega)
  have hmP : P % P = 0 := Nat.mod_self P
  -- first filler step (day P - 1, light off)
  have hsub1 : ∀ x, x < P → learnFn P (P - 1) false 0 (kf1 P (P / 2) 0) x = true →
      igFn 0 (ig1 P (P / 2)) x = true := by
    intro x hx h
    simp only [learnFn] at h
    rw [kf1_at_ne P (P / 2) 0 x h0k] at h
    simp only [igFn, ig1]
    simp only [Bool.and_false, Bool.false_and, Bool.or_false, Bool.and_true, Bool.true_and,
      Bool.or_eq_true, Bool.and_eq_true, decide_eq_true_eq, true_and, and_true, iff_true, true_iff] at h ⊢
    omega
  have hx1 : igFn 0 (ig1 P (P / 2)) 1 = false := by
    apply bool_eq_false_of_not
    intro h
    simp only [igFn, ig1, Bool.or_eq_true, Bool.and_eq_true, decide_eq_true_eq, true_and, and_true, iff_true, true_iff] at h
    omega
  have hstep1 := iterate_canon_continue_notfull P (P - 1) false (kf1 P (P / 2))
    (ig1 P (P / 2)) 0 hPpos hPpos hsub1 1 (by omega) hx1
  have hout1 : learnFn P (P - 1) false 0 (kf1 P (P / 2) 0) ((P - 1) % P) = false := by
    rw [hm1]
    apply bool_eq_false_of_not
    intro h
    simp only [learnFn] at h
    rw [kf1_at_ne P (P / 2) 0 (P - 1) h0k] at h
    simp only [Bool.and_false, Bool.false_and, Bool.or_false, Bool.or_eq_true,
      Bool.and_eq_true, decide_eq_true_eq, true_and, and_true, iff_true, true_iff] at h
    omega
  rw [hout1, show P - 1 + 1 = P from by omega] at hstep1
  -- second filler step (day P, light off)
  have hkfM0 : (fun i => if i = 0 then learnFn P (P - 1) false 0 (kf1 P (P / 2) 0)
      else kf1 P (P / 2) i) 0 = learnFn P (P - 1) false 0 (kf1 P (P / 2) 0) := if_pos rfl
  have hsub2 : ∀ x, x < P → learnFn P P false 0
      ((fun i => if i = 0 then learnFn P (P - 1) false 0 (kf1 P (P / 2) 0)
        else kf1 P (P / 2) i) 0) x = true →
      igFn 0 (igFn 0 (ig1 P (P / 2))) x = true := by
    intro x hx h
    rw [hkfM0] at h
    simp only [learnFn] at h
    rw [kf1_at_ne P (P / 2) 0 x h0k] at h
    simp only [igFn, ig1]
    simp only [Bool.and_false, Bool.false_and, Bool.or_false, Bool.or_eq_true,
      Bool.and_eq_true, decide_eq_true_eq, true_and, and_true, iff_true, true_iff] at h ⊢
    omega
  have hx2 : igFn 0 (igFn 0 (ig1 P (P / 2))) 1 = false := by
    apply bool_eq_false_of_not
    intro h
    simp only [igFn, ig1, Bool.or_eq_true, Bool.and_eq_true, decide_eq_true_eq, true_and, and_true, iff_true, true_iff] at h
    omega
  have hstep2 := iterate_canon_continue_notfull P P false
    (fun i => if i = 0 then learnFn P (P - 1) false 0 (kf1 P (P / 2) 0) else kf1 P (P / 2) i)
    (igFn 0 (ig1 P (P / 2))) 0 hPpos hPpos hsub2 1 (by omega) hx2
  have hout2 : learnFn P P false 0
      ((fun i => if i = 0 then learnFn P (P - 1) false 0 (kf1 P (P / 2) 0)
        else kf1 P (P / 2) i) 0) (P % P) = true := by
    rw [hkfM0, hmP]
    simp only [learnFn]
    simp
  rw [hout2] at hstep2
  have hfinal : canonState P
      (fun i => if i = 0 then learnFn P P false 0
          ((fun i => if i = 0 then learnFn P (P - 1) false 0 (kf1 P (P / 2) 0)
            else kf1 P (P / 2) i) 0)
        else (fun i => if i = 0 then learnFn P (P - 1) false 0 (kf1 P (P / 2) 0)
            else kf1 P (P / 2) i) i)
      (igFn 0 (igFn 0 (ig1 P (P / 2)))) (P + 1) true none = state2 P 0 := by
    rw [state2]
    refine canonState_congr P _ _ _ _ _ _ _ _ _ _ ?_ ?_ (by omega) rfl rfl
    · intro i hi x hx
      show (if i = 0 then learnFn P P false 0
          ((fun i => if i = 0 then learnFn P (P - 1) false 0 (kf1 P (P / 2) 0)
            else kf1 P (P / 2) i) 0)
        else (fun i => if i = 0 then learnFn P (P - 1) false 0 (kf1 P (P / 2) 0)
            else kf1 P (P / 2) i) i) x = kf2 P 0 i x
      by_cases hi0 : i = 0
      · rw [if_pos hi0, hi0, hkfM0, kf2_at_even P 0 0 x h0k (by omega)]
        simp only [learnFn]
        rw [kf1_at_ne P (P / 2) 0 x h0k]
        rw [Bool.eq_iff_iff]
        simp only [Bool.and_false, Bool.false_and, Bool.or_false, Bool.and_true,
          Bool.true_and, Bool.or_eq_true, Bool.and_eq_true, decide_eq_true_eq, true_and, and_true, iff_true, true_iff]
        omega
      · rw [if_neg hi0]
        show (if i = 0 then learnFn P (P - 1) false 0 (kf1 P (P / 2) 0)
          else kf1 P (P / 2) i) x = kf2 P 0 i x
        rw [if_neg hi0]
        by_cases hiP : i = P - 1
        · rw [hiP, kf1_at_k, kf2_at_k]
          rw [Bool.eq_iff_iff]
          simp only [Bool.or_eq_true, Bool.and_eq_true, decide_eq_true_eq, true_and, and_true, iff_true, true_iff]
          omega
        · by_cases hie : i % 2 = 0
          · rw [kf1_at_ne P (P / 2) i x hiP, kf2_at_even P 0 i x hiP hie]
            rw [Bool.eq_iff_iff]
            simp only [Bool.or_eq_true, Bool.and_eq_true, decide_eq_true_eq, true_and, and_true, iff_true, true_iff]
            omega
          · rw [kf1_at_ne P (P / 2) i x hiP, kf2_at_odd P 0 i x hiP hie]
            rw [Bool.eq_iff_iff]
            simp only [Bool.or_eq_true, Bool.and_eq_true, decide_eq_true_eq, true_and, and_true, iff_true, true_iff]
            omega
    · intro x hx
      simp only [igFn, ig1, ig2]
      rw [Bool.eq_iff_iff]
      simp only [Bool.or_eq_true, Bool.and_eq_true, decide_eq_true_eq, true_and, and_true, iff_true, true_iff]
      omega
  rw [hstate, run_cons_continue hstep1, run_cons_continue hstep2, hfinal]

theorem phase2_step (P t : Nat) (hP : 3 ≤ P) (ht : t + 2 ≤ (P - 1) / 2) (rest : List Nat) :
    run_simulation_loop (state2 P t) ((2*t + 1) :: (P - 1) :: rest)
      = run_simulation_loop (state2 P (t + 1)) rest := by
  have hPpos : 0 < P := by omega
  have hbound : 2*t + 4 ≤ P := by omega
  have hsP : 2*t + 1 < P := by omega
  have hsnotk : ¬(2*t + 1 = P - 1) := by omega
  have hsnotk' : ¬(P - 1 = 2*t + 1) := by omega
  have hsodd : ¬((2*t + 1) % 2 = 0) := by omega
  have hmA1 : (P + 1 + 2*t - 1) % P = 2*t := by
    rw [show P + 1 + 2*t - 1 = P + 2*t from by omega, Nat.add_mod_left]
    exact Nat.mod_eq_of_lt (by omega)
  have hmA2 : (P + 1 + 2*t) % P = 2*t + 1 := by
    rw [show P + 1 + 2*t = P + (2*t + 1) from by omega, Nat.add_mod_left]
    exact Nat.mod_eq_of_lt (by omega)
  have hmB1 : (P + 1 + 2*t + 1 - 1) % P = 2*t + 1 := by
    rw [show P + 1 + 2*t + 1 - 1 = P + (2*t + 1) from by omega, Nat.add_mod_left]
    exact Nat.mod_eq_of_lt (by omega)
  have hmB2 : (P + 1 + 2*t + 1) % P = 2*t + 2 := by
    rw [show P + 1 + 2*t + 1 = P + (2*t + 2) from by omega, Nat.add_mod_left]
    exact Nat.mod_eq_of_lt (by omega)
  -- step A: the lighter 2*t + 1
  have hsubA : ∀ x, x < P → learnFn P (P + 1 + 2*t) true (2*t + 1) (kf2 P t (2*t + 1)) x = true →
      igFn (2*t + 1) (ig2 P t) x = true := by
    intro x hx h
    simp only [learnFn] at h
    rw [kf2_at_odd P t (2*t + 1) x hsnotk hsodd, hmA1] at h
    simp only [igFn, ig2]
    simp only [Bool.and_true, Bool.true_and, Bool.or_eq_true, Bool.and_eq_true,
      decide_eq_true_eq, true_and, and_true, iff_true, true_iff] at h ⊢
    omega
  have hx1A : igFn (2*t + 1) (ig2 P t) (2*t + 3) = false := by
    apply bool_eq_false_of_not
    intro h
    simp only [igFn, ig2, Bool.or_eq_true, Bool.and_eq_true, decide_eq_true_eq] at h
    omega
  have hstepA := iterate_canon_continue_notfull P (P + 1 + 2*t) true (kf2 P t) (ig2 P t)
    (2*t + 1) hPpos hsP hsubA (2*t + 3) (by omega) hx1A
  have houtA : learnFn P (P + 1 + 2*t) true (2*t + 1) (kf2 P t (2*t + 1))
      ((P + 1 + 2*t) % P) = true := by
    rw [hmA2]
    simp only [learnFn]
    simp
  rw [houtA] at hstepA
  -- step B: the learner P - 1
  have hsubB : ∀ x, x < P → learnFn P (P + 1 + 2*t + 1) true (P - 1)
      ((fun i => if i = 2*t + 1 then learnFn P (P + 1 + 2*t) true (2*t + 1) (kf2 P t (2*t + 1))
        else kf2 P t i) (P - 1)) x = true →
      igFn (P - 1) (igFn (2*t + 1) (ig2 P t)) x = true := by
    intro x hx h
    simp only [learnFn] at h
    rw [if_neg hsnotk', kf2_at_k, hmB1] at h
    simp only [igFn, ig2]
    simp only [Bool.and_true, Bool.true_and, Bool.or_eq_true, Bool.and_eq_true,
      decide_eq_true_eq, true_and, and_true, iff_true, true_iff] at h ⊢
    omega
  have hx1B : igFn (P - 1) (igFn (2*t + 1) (ig2 P t)) (2*t + 3) = false := by
    apply bool_eq_false_of_not
    intro h
    simp only [igFn, ig2, Bool.or_eq_true, Bool.and_eq_true, decide_eq_true_eq] at h
    omega
  have hstepB := iterate_canon_continue_notfull P (P + 1 + 2*t + 1) true
    (fun i => if i = 2*t + 1 then learnFn P (P + 1 + 2*t) true (2*t + 1) (kf2 P t (2*t + 1))
      else kf2 P t i)
    (igFn (2*t + 1) (ig2 P t)) (P - 1) hPpos (by omega) hsubB (2*t + 3) (by omega) hx1B
  -- assembled final state
  have hfinal : canonState P
      (fun i => if i = P - 1 then
        learnFn P (P + 1 + 2*t + 1) true (P - 1)
          ((fun i => if i = 2*t + 1 then
              learnFn P (P + 1 + 2*t) true (2*t + 1) (kf2 P t (2*t + 1))
            else kf2 P t i) (P - 1))
        else (fun i => if i = 2*t + 1 then
            learnFn P (P + 1 + 2*t) true (2*t + 1) (kf2 P t (2*t + 1))
          else kf2 P t i) i)
      (igFn (P - 1) (igFn (2*t + 1) (ig2 P t))) (P + 1 + 2*t + 1 + 1)
      (learnFn P (P + 1 + 2*t + 1) true (P - 1)
        ((fun i => if i = 2*t + 1 then
            learnFn P (P + 1 + 2*t) true (2*t + 1) (kf2 P t (2*t + 1))
          else kf2 P t i) (P - 1)) ((P + 1 + 2*t + 1) % P)) none
      = state2 P (t + 1) := by
    rw [state2]
    refine canonState_congr P _ _ _ _ _ _ _ _ _ _ ?_ ?_ (by omega) ?_ rfl
    · intro i hi x hx
      show (if i = P - 1 then
          learnFn P (P + 1 + 2*t + 1) true (P - 1)
            ((fun i => if i = 2*t + 1 then
                learnFn P (P + 1 + 2*t) true (2*t + 1) (kf2 P t (2*t + 1))
              else kf2 P t i) (P - 1))
          else (fun i => if i = 2*t + 1 then
              learnFn P (P + 1 + 2*t) true (2*t + 1) (kf2 P t (2*t + 1))
            else kf2 P t i) i) x = kf2 P (t + 1) i x
      by_cases hiP : i = P - 1
      · rw [if_pos hiP, hiP]
        simp only [learnFn]
        rw [if_neg hsnotk', kf2_at_k, hmB1, kf2_at_k]
        rw [Bool.eq_iff_iff]
        simp only [Bool.and_true, Bool.true_and, Bool.or_eq_true, Bool.and_eq_true,
          decide_eq_true_eq, true_and, and_true, iff_true, true_iff]
        omega
      · rw [if_neg hiP]
        show (if i = 2*t + 1 then
            learnFn P (P + 1 + 2*t) true (2*t + 1) (kf2 P t (2*t + 1))
          else kf2 P t i) x = kf2 P (t + 1) i x
        by_cases hi2t : i = 2*t + 1
        · rw [if_pos hi2t, hi2t]
          simp only [learnFn]
          rw [kf2_at_odd P t (2*t + 1) x hsnotk hsodd, hmA1,
            kf2_at_odd P (t + 1) (2*t + 1) x hsnotk hsodd]
          rw [Bool.eq_iff_iff]
          simp only [Bool.and_true, Bool.true_and, Bool.or_eq_true, Bool.and_eq_true,
            decide_eq_true_eq, true_and, and_true, iff_true, true_iff]
          omega
        · rw [if_neg hi2t]
          by_cases hie : i % 2 = 0
          · rw [kf2_at_even P t i x hiP hie, kf2_at_even P (t + 1) i x hiP hie]
          · rw [kf2_at_odd P t i x hiP hie, kf2_at_odd P (t + 1) i x hiP hie]
            rw [Bool.eq_iff_iff]
            simp only [Bool.or_eq_true, Bool.and_eq_true, decide_eq_true_eq,
              true_and, and_true, iff_true, true_iff]
            omega
    · intro x hx
      simp only [igFn, ig2]
      rw [Bool.eq_iff_iff]
      simp only [Bool.or_eq_true, Bool.and_eq_true, decide_eq_true_eq, true_and, and_true, iff_true, true_iff]
      omega
    · rw [hmB2]
      simp only [learnFn]
      rw [if_neg hsnotk', kf2_at_k, hmB1]
      rw [Bool.eq_iff_iff]
      simp only [Bool.and_true, Bool.true_and, Bool.or_eq_true, Bool.and_eq_true,
        decide_eq_true_eq, true_and, and_true, iff_true, true_iff]
      omega
  rw [state2, run_cons_continue hstepA, run_cons_continue hstepB, hfinal]

theorem phase2_chain (P : Nat) (hP : 3 ≤ P) :
    ∀ m t, t + m + 1 = (P - 1) / 2 → ∀ rest : List Nat,
      run_simulation_loop (state2 P t) (pairList (P - 1) (2*t + 1) m ++ rest)
        = run_simulation_loop (state2 P ((P - 1) / 2 - 1)) rest := by
  intro m
  induction m with
  | zero =>
    intro t htm rest
    have hte : t = (P - 1) / 2 - 1 := by omega
    subst hte
    rfl
  | succ m ih =>
    intro t htm rest
    have hpl : pairList (P - 1) (2*t + 1) (m + 1)
        = (2*t + 1) :: (P - 1) :: pairList (P - 1) (2*t + 1 + 2) m := rfl
    rw [hpl, List.cons_append, List.cons_append,
      phase2_step P t hP (by omega)]
    have h2 : 2*t + 1 + 2 = 2*(t + 1) + 1 := by omega
    rw [h2]
    exact ih (t + 1) (by omega) rest

theorem final_pair (P m : Nat) (hP : 3 ≤ P) (hm : (P - 1) / 2 = m + 1) (rest : List Nat) :
    run_simulation_loop (state2 P m) ((2*m + 1) :: (P - 1) :: rest)
      = .done ⟨P + 1 + 2*m, P + 1 + 2*m + 1⟩ := by
  have hPpos : 0 < P := by omega
  have hPlow : 2*m + 3 ≤ P := by omega
  have hPhigh : P ≤ 2*m + 4 := by omega
  have hsP : 2*m + 1 < P := by omega
  have hsnotk : ¬(2*m + 1 = P - 1) := by omega
  have hsnotk' : ¬(P - 1 = 2*m + 1) := by omega
  have hsodd : ¬((2*m + 1) % 2 = 0) := by omega
  have hmA1 : (P + 1 + 2*m - 1) % P = 2*m := by
    rw [show P + 1 + 2*m - 1 = P + 2*m from by omega, Nat.add_mod_left]
    exact Nat.mod_eq_of_lt (by omega)
  have hmA2 : (P + 1 + 2*m) % P = 2*m + 1 := by
    rw [show P + 1 + 2*m = P + (2*m + 1) from by omega, Nat.add_mod_left]
    exact Nat.mod_eq_of_lt (by omega)
  have hmB1 : (P + 1 + 2*m + 1 - 1) % P = 2*m + 1 := by
    rw [show P + 1 + 2*m + 1 - 1 = P + (2*m + 1) from by omega, Nat.add_mod_left]
    exact Nat.mod_eq_of_lt (by omega)
  -- step A: the last lighter completes ground-truth coverage
  have hsubA : ∀ x, x < P →
      learnFn P (P + 1 + 2*m) true (2*m + 1) (kf2 P m (2*m + 1)) x = true →
      igFn (2*m + 1) (ig2 P m) x = true := by
    intro x hx h
    simp only [learnFn] at h
    rw [kf2_at_odd P m (2*m + 1) x hsnotk hsodd, hmA1] at h
    simp only [igFn, ig2]
    simp only [Bool.and_true, Bool.true_and, Bool.or_eq_true, Bool.and_eq_true,
      decide_eq_true_eq, true_and, and_true, iff_true, true_iff] at h ⊢
    omega
  have hx0A : learnFn P (P + 1 + 2*m) true (2*m + 1) (kf2 P m (2*m + 1)) (P - 1) = false := by
    apply bool_eq_false_of_not
    intro h
    simp only [learnFn] at h
    rw [kf2_at_odd P m (2*m + 1) (P - 1) hsnotk hsodd, hmA1] at h
    simp only [Bool.and_true, Bool.true_and, Bool.or_eq_true, Bool.and_eq_true,
      decide_eq_true_eq, true_and, and_true] at h
    omega
  have hfullA : ∀ x, x < P → igFn (2*m + 1) (ig2 P m) x = true := by
    intro x hx
    simp only [igFn, ig2]
    simp only [Bool.or_eq_true, Bool.and_eq_true, decide_eq_true_eq]
    omega
  have hstepA := iterate_canon_continue_full P (P + 1 + 2*m) true (kf2 P m) (ig2 P m)
    (2*m + 1) hPpos hsP hsubA (P - 1) (by omega) hx0A hfullA
  have houtA : learnFn P (P + 1 + 2*m) true (2*m + 1) (kf2 P m (2*m + 1))
      ((P + 1 + 2*m) % P) = true := by
    rw [hmA2]
    simp only [learnFn]
    simp
  rw [houtA] at hstepA
  -- step B: the learner completes its knowledge and terminates the trial
  have hsubB : ∀ x, x < P → learnFn P (P + 1 + 2*m + 1) true (P - 1)
      ((fun i => if i = 2*m + 1 then
          learnFn P (P + 1 + 2*m) true (2*m + 1) (kf2 P m (2*m + 1))
        else kf2 P m i) (P - 1)) x = true →
      igFn (P - 1) (igFn (2*m + 1) (ig2 P m)) x = true := by
    intro x hx _
    simp only [igFn, ig2]
    simp only [Bool.or_eq_true, Bool.and_eq_true, decide_eq_true_eq]
    omega
  have hfullB : ∀ x, x < P → learnFn P (P + 1 + 2*m + 1) true (P - 1)
      ((fun i => if i = 2*m + 1 then
          learnFn P (P + 1 + 2*m) true (2*m + 1) (kf2 P m (2*m + 1))
        else kf2 P m i) (P - 1)) x = true := by
    intro x hx
    simp only [learnFn]
    rw [if_neg hsnotk', kf2_at_k, hmB1]
    simp only [Bool.and_true, Bool.true_and, Bool.or_eq_true, Bool.and_eq_true,
      decide_eq_true_eq, true_and, and_true]
    omega
  have hstepB := iterate_canon_terminate P (P + 1 + 2*m + 1) true
    (fun i => if i = 2*m + 1 then
        learnFn P (P + 1 + 2*m) true (2*m + 1) (kf2 P m (2*m + 1))
      else kf2 P m i)
    (igFn (2*m + 1) (ig2 P m)) (P + 1 + 2*m) (P - 1) hPpos (by omega) hsubB hfullB
  rw [state2, run_cons_continue hstepA, run_cons_done hstepB rfl]
  rfl

theorem pairList_snoc (k : Nat) : ∀ m start,
    pairList k start (m + 1) = pairList k start m ++ [start + 2*m, k] := by
  intro m
  induction m with
  | zero =>
    intro start
    show [start, k] = [] ++ [start + 2*0, k]
    rw [Nat.mul_zero, Nat.add_zero, List.nil_append]
  | succ m ih =>
    intro start
    have h1 : pairList k start (m + 1 + 1) = start :: k :: pairList k (start + 2) (m + 1) := rfl
    rw [h1, ih (start + 2)]
    have h2 : start + 2 + 2*m = start + 2*(m + 1) := by omega
    rw [h2]
    rfl

theorem pairList_length (k : Nat) : ∀ m start, (pairList k start m).length = 2*m := by
  intro m
  induction m with
  | zero =>
    intro start
    rfl
  | succ m ih =>
    intro start
    show (start :: k :: pairList k (start + 2) m).length = 2*(m + 1)
    simp only [List.length_cons, ih (start + 2)]
    omega

theorem state1_zero (P : Nat) (hP : 1 ≤ P) : state1 P 0 = WorldState.new P := by
  rw [state1, WorldState.new, canonState]
  have h1 : (List.range P).map (fun i => Prisoner.mk ((List.range P).map (kf1 P 0 i)))
      = List.replicate P (Prisoner.new P) := by
    rw [replicate_eq_map_range]
    refine map_range_congr (fun i hi => ?_)
    show Prisoner.mk ((List.range P).map (kf1 P 0 i)) = Prisoner.new P
    rw [Prisoner.new, replicate_eq_map_range]
    refine congrArg Prisoner.mk (map_range_congr (fun x hx => ?_))
    by_cases hiP : i = P - 1
    · rw [hiP, kf1_at_k]
      simp
    · rw [kf1_at_ne P 0 i x hiP]
      apply bool_eq_false_of_not
      intro h
      simp only [Bool.and_eq_true, decide_eq_true_eq, true_and, and_true] at h
      omega
  have h2 : (List.range P).map (ig1 P 0) = List.replicate P false := by
    rw [replicate_eq_map_range]
    refine map_range_congr (fun x hx => ?_)
    apply bool_eq_false_of_not
    intro h
    simp only [ig1, Bool.or_eq_true, Bool.and_eq_true, decide_eq_true_eq,
      true_and, and_true] at h
    omega
  rw [h1, h2, Nat.mul_zero]
  have h3 : decide (0 = P) = false := by
    simp only [decide_eq_false_iff_not]
    omega
  rw [h3]

theorem phase2_full (P : Nat) (hP : 3 ≤ P) (rest : List Nat) :
    run_simulation_loop (state2 P 0) (pairList (P - 1) 1 ((P - 1) / 2) ++ rest)
      = .done ⟨P + 1 + 2*((P - 1) / 2 - 1), P + 1 + 2*((P - 1) / 2 - 1) + 1⟩ := by
  obtain ⟨m, hm⟩ : ∃ m, (P - 1) / 2 = m + 1 := ⟨(P - 1) / 2 - 1, by omega⟩
  have hm1 : (P - 1) / 2 - 1 = m := by omega
  rw [hm1, hm, pairList_snoc, List.append_assoc]
  have hstart : pairList (P - 1) 1 m = pairList (P - 1) (2*0 + 1) m := by
    rw [Nat.mul_zero, Nat.zero_add]
  rw [hstart, phase2_chain P hP m 0 (by omega) _, hm1]
  rw [show (1 + 2*m) = 2*m + 1 from by omega]
  rw [List.cons_append, List.cons_append, List.nil_append]
  exact final_pair P m hP (by omega) rest

/-- Running the fixed schedule from a fresh world with `P ≥ 3` prisoners
terminates, with full ground-truth coverage on the day before the last. -/
theorem schedule_works (P : Nat) (hP : 3 ≤ P) :
    run_simulation_loop (WorldState.new P) (schedule P)
      = .done ⟨P + 1 + 2*((P - 1) / 2 - 1), P + 1 + 2*((P - 1) / 2 - 1) + 1⟩ := by
  rw [← state1_zero P (by omega), schedule, List.append_assoc]
  have hstart : pairList (P - 1) 0 (P / 2) = pairList (P - 1) (2*0) (P / 2) := by
    rw [Nat.mul_zero]
  rw [hstart, phase1_chain P hP (P / 2) 0 (by omega) _]
  have hph2 := phase2_full P hP []
  rw [List.append_nil] at hph2
  by_cases hPe : P % 2 = 0
  · rw [if_pos hPe, List.singleton_append, filler_even P hP hPe, hph2]
  · rw [if_neg hPe,
      show ([0, 0] : List Nat) ++ pairList (P - 1) 1 ((P - 1) / 2)
        = 0 :: 0 :: pairList (P - 1) 1 ((P - 1) / 2) from rfl,
      filler_odd P hP (by omega), hph2]

theorem schedule_length (P : Nat) (hP : 1 ≤ P) : (schedule P).length ≤ 2*P := by
  rw [schedule]
  simp only [List.length_append, pairList_length]
  by_cases hPe : P % 2 = 0
  · rw [if_pos hPe]
    simp only [List.length_cons, List.length_nil]
    omega
  · rw [if_neg hPe]
    simp only [List.length_cons, List.length_nil]
    omega

/-- Claim C9 counterexample: the round-robin sequence choosing prisoner
`d mod P` on day `d` is not an example.  For `P = 3` the full round-robin
sequence of length `2 P = 6` leaves every prisoner knowing exactly two
indexes and the trial unterminated (so no termination with
`prisoners_freed_on_day ≤ 2 P - 1 = 5` is possible under it). -/
theorem claim_C9_counterexample :
    run_simulation_loop (WorldState.new 3) [0, 1, 2, 0, 1, 2]
      = .outOfChoices ⟨[⟨[true, false, true]⟩, ⟨[true, true, false]⟩, ⟨[false, true, true]⟩],
          [true, true, true], 6, true, some 2⟩ := by
  decide

/-- Claim C9 (amended): for every `P ≥ 1` there exists a fixed (non-random)
selection sequence of length at most `2 P` under which the trial terminates
with `prisoners_freed_on_day ≤ 2 P - 1` — but the round-robin sequence is
not such an example for `P ≥ 3`; an interleaved lighter/learner schedule
is. -/
theorem claim_C9_fixed_schedule (P : Nat) (hP : 1 ≤ P) :
    ∃ choices : List Nat, choices.length ≤ 2*P ∧
      ∃ r : SimulationResult,
        run_simulation_loop (WorldState.new P) choices = .done r ∧
        r.prisoners_freed_on_day ≤ 2*P - 1 := by
  by_cases h1 : P = 1
  · subst h1
    exact ⟨[0], by decide, ⟨0, 0⟩, by decide, by decide⟩
  by_cases h2 : P = 2
  · subst h2
    exact ⟨[0, 1], by decide, ⟨1, 1⟩, by decide, by decide⟩
  have hP3 : 3 ≤ P := by omega
  refine ⟨schedule P, schedule_length P hP, ⟨_, _⟩, schedule_works P hP3, ?_⟩
  show P + 1 + 2*((P - 1) / 2 - 1) + 1 ≤ 2*P - 1
  omega

theorem claim_C9_witness :
    ∃ choices : List Nat, choices.length ≤ 2*3 ∧
      ∃ r : SimulationResult,
        run_simulation_loop (WorldState.new 3) choices = .done r ∧
        r.prisoners_freed_on_day ≤ 2*3 - 1 :=
  claim_C9_fixed_schedule 3 (by decide)

end IlluminatedInmates
